import Mathlib

/-!
Verification of the task-hierarchy builder and TTL cache of a Todoist
MCP server (TypeScript).  The definitions below are a shallow embedding
of the source files:

* `src/handlers/subtask-handlers.ts` — `findTask`, `handleGetTaskHierarchy`
  with its inner `buildTaskTree`, and the module-level `taskCache`;
* `src/cache.ts` — `SimpleCache`;
* `src/utils/error-handling.ts` — `ErrorHandler.handleAPIError`;
* `src/errors.ts` — the error classes (name / message / code / statusCode);
* `src/handlers/task-handlers.ts` — the cache effects of the mutating
  task handlers (they clear the CacheManager "tasks" cache).

JavaScript numbers are modelled as `Nat`/`Int`/`ℚ` (all quantities in the
embedded code are small integers or exact ratios of those), `Math.round`
as round-half-up on `ℚ`, unbounded recursion as fuel-indexed recursion
where `none` means the recursion did not complete within the given fuel
(so "diverges" = `none` for every fuel), and thrown exceptions as
`Except`.
-/

/-- One task of the remote system, as the hierarchy logic sees it.
The TypeScript interface `TodoistTask` (src/types.ts) has further
passthrough fields (description, due, labels, priority, projectId, ...)
that `buildTaskTree`, `findTopmostParent` and the name lookup never read;
they are omitted here. `parentId` is `string | null | undefined` in the
source, modelled as `Option String`. `isCompleted` is an optional boolean
in the source; `false` and `undefined` behave identically in every
branch of the embedded code, so it is a plain `Bool` here. -/
structure TodoistTask where
  id : String
  content : String
  parentId : Option String
  isCompleted : Bool
deriving DecidableEq, Repr

/-- JavaScript truthiness of a `string | null | undefined` value:
`null`, `undefined` and the empty string are falsy. -/
def jsTruthy : Option String → Bool
  | none => false
  | some s => !(s == "")

/-- `Math.round` for the (finitely many, exactly representable) values the
embedded code feeds it: round half up, `Math.round(x) = ⌊x + 0.5⌋`. -/
def mathRound (q : ℚ) : ℤ := ⌊q + 1 / 2⌋

/-- The node type built by `buildTaskTree`: the source's `TaskNode`
(task, children, depth, completionPercentage, isOriginalTask) extended by
the internal `ExtendedTaskNode` fields `totalTasks` and `completedTasks`
(src/handlers/subtask-handlers.ts, interface `ExtendedTaskNode`). -/
inductive ExtendedTaskNode : Type where
  | mk
    (task : TodoistTask)
    (children : List ExtendedTaskNode)
    (depth : Nat)
    (completionPercentage : ℤ)
    (totalTasks : Nat)
    (completedTasks : Nat)
    (isOriginalTask : Bool)

def ExtendedTaskNode.task : ExtendedTaskNode → TodoistTask
  | .mk t _ _ _ _ _ _ => t

def ExtendedTaskNode.children : ExtendedTaskNode → List ExtendedTaskNode
  | .mk _ c _ _ _ _ _ => c

def ExtendedTaskNode.depth : ExtendedTaskNode → Nat
  | .mk _ _ d _ _ _ _ => d

def ExtendedTaskNode.completionPercentage : ExtendedTaskNode → ℤ
  | .mk _ _ _ p _ _ _ => p

def ExtendedTaskNode.totalTasks : ExtendedTaskNode → Nat
  | .mk _ _ _ _ tt _ _ => tt

def ExtendedTaskNode.completedTasks : ExtendedTaskNode → Nat
  | .mk _ _ _ _ _ ct _ => ct

def ExtendedTaskNode.isOriginalTask : ExtendedTaskNode → Bool
  | .mk _ _ _ _ _ _ o => o

/-- The direct children `buildTaskTree` collects for `task`:
`allTasks.filter(t => t.parentId === task.id && (include_completed || !t.isCompleted))`
(src/handlers/subtask-handlers.ts lines 294-301). -/
def childTasks (allTasks : List TodoistTask) (includeCompleted : Bool)
    (task : TodoistTask) : List TodoistTask :=
  allTasks.filter fun t =>
    t.parentId == some task.id && (includeCompleted || !t.isCompleted)

/-- The node `buildTaskTree` returns once the child nodes are built
(src/handlers/subtask-handlers.ts lines 310-335).  Note the two `reduce`
calls seed the accumulator with `childNodes.length` and with the number of
completed direct children respectively, on top of the children's own
(self-inclusive) `totalTasks` / `completedTasks`. -/
def mkExtendedTaskNode (task : TodoistTask) (depth : Nat)
    (originalTaskId : String) (childNodes : List ExtendedTaskNode) :
    ExtendedTaskNode :=
  let totalSubtasks :=
    childNodes.foldl (fun sum node => sum + node.totalTasks) childNodes.length
  let completedSubtasks :=
    childNodes.foldl (fun sum node => sum + node.completedTasks)
      (childNodes.filter (fun n => n.task.isCompleted)).length
  let completionPercentage : ℤ :=
    if totalSubtasks > 0 then
      mathRound (((completedSubtasks : ℚ) / (totalSubtasks : ℚ)) * 100)
    else if task.isCompleted then 100 else 0
  .mk task childNodes depth completionPercentage
    (1 + totalSubtasks)
    ((if task.isCompleted then 1 else 0) + completedSubtasks)
    (task.id == originalTaskId)

/-- The recursive tree build of `handleGetTaskHierarchy`
(src/handlers/subtask-handlers.ts lines 289-336).  The source recursion
has no termination guard at all; `fuel` bounds the recursion depth here,
and `none` means the recursion did not finish within `fuel` levels — the
build diverges exactly when the result is `none` for every fuel. -/
def buildTaskTree (allTasks : List TodoistTask) (includeCompleted : Bool)
    (originalTaskId : String) (fuel : Nat) (task : TodoistTask) (depth : Nat) :
    Option ExtendedTaskNode :=
  match fuel with
  | 0 => none
  | fuel + 1 =>
    match (childTasks allTasks includeCompleted task).mapM
        (fun child =>
          buildTaskTree allTasks includeCompleted originalTaskId fuel child
            (depth + 1)) with
    | none => none
    | some childNodes => some (mkExtendedTaskNode task depth originalTaskId childNodes)
  termination_by fuel

/-- The upward ancestor walk of `handleGetTaskHierarchy`
(src/handlers/subtask-handlers.ts lines 269-286): a `while` loop guarded
by `topmostParent.parentId && !visitedIds.has(topmostParent.id)`.  The
loop always terminates (the visited set grows each iteration); `fuel`
makes that termination explicit, with `none` meaning the loop was cut off
before exiting on its own. -/
def findTopmostParent (allTasks : List TodoistTask) (fuel : Nat)
    (visitedIds : List String) (topmostParent : TodoistTask) :
    Option TodoistTask :=
  match fuel with
  | 0 => none
  | fuel + 1 =>
    if jsTruthy topmostParent.parentId && !(visitedIds.contains topmostParent.id) then
      match allTasks.find? (fun t => some t.id == topmostParent.parentId) with
      | some parent =>
        findTopmostParent allTasks fuel (topmostParent.id :: visitedIds) parent
      | none => some topmostParent
    else
      some topmostParent
  termination_by fuel

/-- The hierarchy returned by `handleGetTaskHierarchy` (src/types.ts
interface `TaskHierarchy`, with the root kept as the extended node). -/
structure TaskHierarchy where
  root : ExtendedTaskNode
  totalTasks : Nat
  completedTasks : Nat
  overallCompletion : ℤ
  originalTaskId : String

/-- Lines 265-348 of src/handlers/subtask-handlers.ts, after the requested
task is resolved: fetch all tasks, walk up to the topmost parent, build the
tree from it, assemble the `TaskHierarchy`.  `none` = the walk or the build
did not finish within the given fuel. -/
def handleGetTaskHierarchyFromTask (allTasks : List TodoistTask)
    (includeCompleted : Bool) (requestedTask : TodoistTask)
    (walkFuel buildFuel : Nat) : Option TaskHierarchy :=
  match findTopmostParent allTasks walkFuel [] requestedTask with
  | none => none
  | some topmostParent =>
    match buildTaskTree allTasks includeCompleted requestedTask.id buildFuel
        topmostParent 0 with
    | none => none
    | some rootNode =>
      some
        { root := rootNode
          totalTasks := rootNode.totalTasks
          completedTasks := rootNode.completedTasks
          overallCompletion :=
            mathRound
              (((rootNode.completedTasks : ℚ) / (rootNode.totalTasks : ℚ)) * 100)
          originalTaskId := requestedTask.id }

/-- All nodes of all trees in the list, each tree contributing its root and,
recursively, the nodes of its child trees. -/
def subNodesList : List ExtendedTaskNode → List ExtendedTaskNode
  | [] => []
  | .mk t cs d p tt ct o :: rest =>
    .mk t cs d p tt ct o :: (subNodesList cs ++ subNodesList rest)

/-- All nodes of the tree rooted at `n`: `n` itself and every descendant. -/
def ExtendedTaskNode.subNodes (n : ExtendedTaskNode) : List ExtendedTaskNode :=
  subNodesList [n]

/-- The error values of src/errors.ts, by their distinguishing data:
`name` plays the role of the class tag (an `instanceof C` check in the
source corresponds to a `name` comparison here), `message`, `code` and
`statusCode` are the constructor-set fields. -/
structure TodoistMCPError where
  name : String
  message : String
  code : String
  statusCode : Nat
deriving DecidableEq, Repr

/-- `new TaskNotFoundError(taskName)` (src/errors.ts). -/
def mkTaskNotFoundError (taskName : String) : TodoistMCPError :=
  { name := "TaskNotFoundError"
    message := "Could not find a task matching \"" ++ taskName ++ "\""
    code := "TASK_NOT_FOUND"
    statusCode := 404 }

/-- `new ValidationError(message)` with no field argument (src/errors.ts). -/
def mkValidationError (message : String) : TodoistMCPError :=
  { name := "ValidationError"
    message := message
    code := "VALIDATION_ERROR"
    statusCode := 400 }

/-- `new TodoistAPIError(message, originalError?)` (src/errors.ts): the
original error only contributes its stack trace, which has no observable
counterpart here. -/
def mkTodoistAPIError (message : String) : TodoistMCPError :=
  { name := "TodoistAPIError"
    message := "Todoist API error: " ++ message
    code := "TODOIST_API_ERROR"
    statusCode := 500 }

/-- `new AuthenticationError()` (src/errors.ts). -/
def authenticationErrorValue : TodoistMCPError :=
  { name := "AuthenticationError"
    message := "Invalid or missing Todoist API token"
    code := "AUTHENTICATION_ERROR"
    statusCode := 401 }

/-- Whether `pat` is a prefix of the second list. -/
def listPrefixCheck : List Char → List Char → Bool
  | [], _ => true
  | _ :: _, [] => false
  | a :: as, b :: bs => a == b && listPrefixCheck as bs

/-- Whether `pat` occurs as a contiguous sublist. -/
def listInfixCheck (pat : List Char) : List Char → Bool
  | [] => pat.isEmpty
  | b :: bs => listPrefixCheck pat (b :: bs) || listInfixCheck pat bs

/-- JavaScript `String.prototype.toLowerCase` (character-wise lowering, as
in the core library's `String.toLower`, spelled out structurally). -/
def strToLower (s : String) : String := ⟨s.data.map Char.toLower⟩

/-- JavaScript `haystack.includes(needle)` on strings: `true` iff `needle`
occurs as a contiguous substring (always true for the empty needle). -/
def jsIncludes (haystack needle : String) : Bool :=
  listInfixCheck needle.data haystack.data

/-- `ErrorHandler.isAuthenticationError` (src/utils/error-handling.ts):
keyword scan over the lowercased message. -/
def isAuthenticationError (e : TodoistMCPError) : Bool :=
  let m := strToLower e.message
  jsIncludes m "unauthorized" || jsIncludes m "authentication" ||
    jsIncludes m "invalid token" || jsIncludes m "forbidden" ||
    jsIncludes m "401" || jsIncludes m "403"

/-- `ErrorHandler.isValidationError` (src/utils/error-handling.ts). -/
def isValidationErrorCheck (e : TodoistMCPError) : Bool :=
  let m := strToLower e.message
  jsIncludes m "validation" || jsIncludes m "invalid input" ||
    jsIncludes m "bad request" || jsIncludes m "400"

/-- `ErrorHandler.handleAPIError(operation, error)` for an `Error` argument
(src/utils/error-handling.ts lines 62-90): classify by message keywords,
otherwise wrap in a `TodoistAPIError` whose message names only the
operation. -/
def handleAPIError (operation : String) (error : TodoistMCPError) :
    TodoistMCPError :=
  if isAuthenticationError error then
    authenticationErrorValue
  else if isValidationErrorCheck error then
    mkValidationError ("Validation failed during " ++ operation ++ ": " ++ error.message)
  else
    mkTodoistAPIError ("Failed to " ++ operation)

/-- `${args.task_id || args.task_name}` (src/handlers/subtask-handlers.ts
line 84): first truthy value, with JavaScript template-literal
stringification of `undefined`. -/
def jsOrDisplay (a b : Option String) : String :=
  if jsTruthy a then a.getD "" else
    match b with
    | some s => s
    | none => "undefined"

/-- `findTask` of src/handlers/subtask-handlers.ts (lines 52-95).
`getTaskById` stands for the remote `todoistClient.getTask` call of the
id branch (its failure value is whatever the SDK rejects with);
`cachedTasks` is the current `taskCache.get("todoist_tasks")` result and
`remoteTasks` the list a fresh `getTasks()` fetch would return after
`extractArrayFromResponse` (on a cache miss the source fetches, caches and
uses exactly that list).  Thrown errors are `Except.error`; the `catch`
clause rethrows a `TaskNotFoundError` unchanged and routes every other
error through `ErrorHandler.handleAPIError("findTask", ...)`. -/
def findTask (getTaskById : String → Except TodoistMCPError TodoistTask)
    (cachedTasks : Option (List TodoistTask)) (remoteTasks : List TodoistTask)
    (task_id task_name : Option String) : Except TodoistMCPError TodoistTask :=
  if !(jsTruthy task_id) && !(jsTruthy task_name) then
    .error (mkValidationError "Either task_id or task_name is required")
  else
    let body : Except TodoistMCPError (Option TodoistTask) :=
      if jsTruthy task_id then
        match getTaskById (task_id.getD "") with
        | .ok t => .ok (some t)
        | .error e => .error e
      else if jsTruthy task_name then
        let tasks := cachedTasks.getD remoteTasks
        let searchTerm := strToLower (task_name.getD "")
        .ok (tasks.find? fun t => jsIncludes (strToLower t.content) searchTerm)
      else
        .ok none
    let attempt : Except TodoistMCPError TodoistTask :=
      match body with
      | .error e => .error e
      | .ok (some t) => .ok t
      | .ok none =>
        .error (mkTaskNotFoundError ("Task not found: " ++ jsOrDisplay task_id task_name))
    match attempt with
    | .ok t => .ok t
    | .error e =>
      if e.name == "TaskNotFoundError" then .error e
      else .error (handleAPIError "findTask" e)

/-- `handleGetTaskHierarchy` of src/handlers/subtask-handlers.ts
(lines 254-352): resolve the requested task, then walk up and build the
tree over a fresh `getTasks()` fetch (`remoteTasks`); its `catch` clause
routes every thrown error through
`ErrorHandler.handleAPIError("getTaskHierarchy", ...)`.  The outer `none`
means the walk or build did not finish within the given fuel (the source
has no bound there and would not return at all). -/
def handleGetTaskHierarchy (getTaskById : String → Except TodoistMCPError TodoistTask)
    (cachedTasks : Option (List TodoistTask)) (remoteTasks : List TodoistTask)
    (task_id task_name : Option String) (include_completed : Bool)
    (walkFuel buildFuel : Nat) : Option (Except TodoistMCPError TaskHierarchy) :=
  match findTask getTaskById cachedTasks remoteTasks task_id task_name with
  | .error e => some (.error (handleAPIError "getTaskHierarchy" e))
  | .ok requestedTask =>
    match handleGetTaskHierarchyFromTask remoteTasks include_completed
        requestedTask walkFuel buildFuel with
    | none => none
    | some h => some (.ok h)

/-- One entry of `SimpleCache` (src/cache.ts interface `CacheEntry`).
Timestamps are `Date.now()` milliseconds, modelled as `Int`; the optional
`accessCount` / `lastAccessed` are always written by `set`, so they are
total here. -/
structure CacheEntry (T : Type) where
  data : T
  timestamp : Int
  ttl : Int
  accessCount : Nat
  lastAccessed : Int
deriving DecidableEq, Repr

/-- The `CacheConfig` fields `SimpleCache` actually reads
(src/cache.ts; `autoCleanupInterval` only drives a background timer that
calls `cleanup`, which is modelled as the explicit `cleanup` below). -/
structure CacheConfig where
  defaultTtl : Int
  maxSize : Option Nat
  enableStats : Bool
  enableAccessTracking : Bool
deriving DecidableEq, Repr

/-- JavaScript `Map.get`: the value stored under `key`, if any. -/
def jsMapGet (m : List (String × CacheEntry T)) (key : String) :
    Option (CacheEntry T) :=
  (m.find? fun p => p.1 == key).map fun p => p.2

/-- JavaScript `Map.set`: overwrite in place if the key is present
(preserving insertion order), else append. -/
def jsMapSet (m : List (String × CacheEntry T)) (key : String)
    (value : CacheEntry T) : List (String × CacheEntry T) :=
  if (m.find? fun p => p.1 == key).isSome then
    m.map fun p => if p.1 == key then (key, value) else p
  else
    m ++ [(key, value)]

/-- JavaScript `Map.delete`: whether the key was present, and the map
without it. -/
def jsMapDelete (m : List (String × CacheEntry T)) (key : String) :
    Bool × List (String × CacheEntry T) :=
  ((m.find? fun p => p.1 == key).isSome, m.filter fun p => !(p.1 == key))

/-- `SimpleCache` (src/cache.ts): the underlying insertion-ordered map,
the default TTL, the hit/miss counters and the configuration. -/
structure SimpleCache (T : Type) where
  cache : List (String × CacheEntry T)
  defaultTtl : Int
  hitCount : Nat
  missCount : Nat
  config : CacheConfig
deriving DecidableEq, Repr

/-- `new SimpleCache<T>(defaultTtlMs)` with no config overrides
(src/cache.ts lines 41-50): stats and access tracking on, no max size. -/
def mkSimpleCache (T : Type) (defaultTtlMs : Int) : SimpleCache T :=
  { cache := []
    defaultTtl := defaultTtlMs
    hitCount := 0
    missCount := 0
    config :=
      { defaultTtl := defaultTtlMs
        maxSize := none
        enableStats := true
        enableAccessTracking := true } }

/-- `evictLeastRecentlyUsed` (src/cache.ts lines 187-204): scan for the
entry with the smallest `lastAccessed || timestamp` strictly below the
running minimum, which starts at `Date.now()`; delete it if one was found.
`lastAccessed || timestamp` is JavaScript truthiness on a number: `0` is
falsy. -/
def SimpleCache.evictLeastRecentlyUsed (c : SimpleCache T) (now : Int) :
    SimpleCache T :=
  if c.cache.length = 0 then c
  else
    let scan :=
      c.cache.foldl
        (fun (acc : Option String × Int) p =>
          let lastAccessed := if p.2.lastAccessed != 0 then p.2.lastAccessed else p.2.timestamp
          if lastAccessed < acc.2 then (some p.1, lastAccessed) else acc)
        (none, now)
    match scan.1 with
    | some lruKey => { c with cache := (jsMapDelete c.cache lruKey).2 }
    | none => c

/-- `SimpleCache.set(key, data, ttl?)` at time `now` (src/cache.ts
lines 52-65). -/
def SimpleCache.set (c : SimpleCache T) (key : String) (data : T)
    (ttl : Option Int) (now : Int) : SimpleCache T :=
  let c :=
    match c.config.maxSize with
    | some maxSize => if c.cache.length ≥ maxSize then c.evictLeastRecentlyUsed now else c
    | none => c
  { c with
    cache := jsMapSet c.cache key
      { data := data
        timestamp := now
        ttl := ttl.getD c.defaultTtl
        accessCount := 0
        lastAccessed := now } }

/-- `SimpleCache.get(key)` at time `now` (src/cache.ts lines 67-99):
the returned value (`null` = `none`) and the cache afterwards (an expired
entry is evicted, counters and access tracking are updated). -/
def SimpleCache.get (c : SimpleCache T) (key : String) (now : Int) :
    Option T × SimpleCache T :=
  match jsMapGet c.cache key with
  | none =>
    (none, if c.config.enableStats then { c with missCount := c.missCount + 1 } else c)
  | some entry =>
    if now - entry.timestamp > entry.ttl then
      let c := { c with cache := (jsMapDelete c.cache key).2 }
      (none, if c.config.enableStats then { c with missCount := c.missCount + 1 } else c)
    else
      let c :=
        if c.config.enableAccessTracking then
          { c with
            cache := jsMapSet c.cache key
              { entry with accessCount := entry.accessCount + 1, lastAccessed := now } }
        else c
      (some entry.data, if c.config.enableStats then { c with hitCount := c.hitCount + 1 } else c)

/-- `SimpleCache.delete(key)` (src/cache.ts lines 101-103): the raw
`Map.delete`, with no expiry check. -/
def SimpleCache.delete (c : SimpleCache T) (key : String) :
    Bool × SimpleCache T :=
  let d := jsMapDelete c.cache key
  (d.1, { c with cache := d.2 })

/-- `SimpleCache.clear()` (src/cache.ts lines 105-107). -/
def SimpleCache.clear (c : SimpleCache T) : SimpleCache T :=
  { c with cache := [] }

/-- `SimpleCache.size()` (src/cache.ts lines 109-111): the raw map size,
with no expiry check. -/
def SimpleCache.size (c : SimpleCache T) : Nat :=
  c.cache.length

/-- `SimpleCache.has(key)` at time `now` (src/cache.ts lines 163-174):
expiry-aware membership; an expired entry is evicted as a side effect. -/
def SimpleCache.has (c : SimpleCache T) (key : String) (now : Int) :
    Bool × SimpleCache T :=
  match jsMapGet c.cache key with
  | none => (false, c)
  | some entry =>
    if now - entry.timestamp > entry.ttl then
      (false, { c with cache := (jsMapDelete c.cache key).2 })
    else
      (true, c)

/-- `SimpleCache.cleanup()` at time `now` (src/cache.ts lines 114-121). -/
def SimpleCache.cleanup (c : SimpleCache T) (now : Int) : SimpleCache T :=
  { c with cache := c.cache.filter fun p => !(now - p.2.timestamp > p.2.ttl) }

/-- The two task-list caches the server actually holds: the
subtask-handlers module cache (`new SimpleCache<TodoistTask[]>(30000)`,
key "todoist_tasks", consulted by `findTask` name lookups — 
src/handlers/subtask-handlers.ts line 28) and the CacheManager "tasks"
cache of the task-handlers module (src/handlers/task-handlers.ts).  They
are distinct `SimpleCache` instances. -/
structure TaskCaches where
  subtaskTaskCache : SimpleCache (List TodoistTask)
  tasksCache : SimpleCache (List TodoistTask)

/-- The cache effect of `handleCreateTask` — and likewise of
`handleUpdateTask`, `handleDeleteTask`, `handleCompleteTask` and the bulk
variants (src/handlers/task-handlers.ts): `taskCache.clear()` on the
CacheManager "tasks" cache of that module, and nothing else. -/
def handleCreateTaskCacheEffect (s : TaskCaches) : TaskCaches :=
  { s with tasksCache := s.tasksCache.clear }

/-- The cache effect of the mutating subtask handlers
(`handleCreateSubtask`, `handleConvertToSubtask`, `handlePromoteSubtask`,
`handleBulkCreateSubtasks` — src/handlers/subtask-handlers.ts):
`taskCache.clear()` on the subtask module cache, and nothing else. -/
def handleCreateSubtaskCacheEffect (s : TaskCaches) : TaskCaches :=
  { s with subtaskTaskCache := s.subtaskTaskCache.clear }

/-- The `taskCache.get("todoist_tasks")` lookup `findTask` performs for a
name-based search (src/handlers/subtask-handlers.ts line 67). -/
def findTaskCacheLookup (s : TaskCaches) (now : Int) :
    Option (List TodoistTask) :=
  (s.subtaskTaskCache.get "todoist_tasks" now).1

@[simp]
theorem ExtendedTaskNode.task_mk :
    (ExtendedTaskNode.mk t cs d p tt ct o).task = t := rfl

@[simp]
theorem ExtendedTaskNode.children_mk :
    (ExtendedTaskNode.mk t cs d p tt ct o).children = cs := rfl

@[simp]
theorem ExtendedTaskNode.depth_mk :
    (ExtendedTaskNode.mk t cs d p tt ct o).depth = d := rfl

@[simp]
theorem ExtendedTaskNode.completionPercentage_mk :
    (ExtendedTaskNode.mk t cs d p tt ct o).completionPercentage = p := rfl

@[simp]
theorem ExtendedTaskNode.totalTasks_mk :
    (ExtendedTaskNode.mk t cs d p tt ct o).totalTasks = tt := rfl

@[simp]
theorem ExtendedTaskNode.completedTasks_mk :
    (ExtendedTaskNode.mk t cs d p tt ct o).completedTasks = ct := rfl

@[simp]
theorem ExtendedTaskNode.isOriginalTask_mk :
    (ExtendedTaskNode.mk t cs d p tt ct o).isOriginalTask = o := rfl

theorem ExtendedTaskNode.eta (n : ExtendedTaskNode) :
    ExtendedTaskNode.mk n.task n.children n.depth n.completionPercentage
      n.totalTasks n.completedTasks n.isOriginalTask = n := by
  cases n
  rfl

@[simp]
theorem subNodesList_nil : subNodesList [] = [] := by simp [subNodesList]

theorem subNodes_def (n : ExtendedTaskNode) :
    n.subNodes = n :: subNodesList n.children := by
  cases n
  simp [ExtendedTaskNode.subNodes, subNodesList]

theorem subNodesList_cons (n : ExtendedTaskNode) (ns : List ExtendedTaskNode) :
    subNodesList (n :: ns) = n.subNodes ++ subNodesList ns := by
  cases n
  simp [ExtendedTaskNode.subNodes, subNodesList]

theorem mem_subNodesList {m : ExtendedTaskNode} :
    ∀ {ns : List ExtendedTaskNode},
      m ∈ subNodesList ns ↔ ∃ n ∈ ns, m ∈ n.subNodes := by
  intro ns
  induction ns with
  | nil => simp
  | cons n ns ih =>
    rw [subNodesList_cons]
    simp [ih]

theorem self_mem_subNodes (n : ExtendedTaskNode) : n ∈ n.subNodes := by
  rw [subNodes_def]; exact List.mem_cons_self n _

/-- Accumulating `reduce` as initial value plus a mapped sum. -/
theorem foldl_add_map {α : Type} (g : α → Nat) :
    ∀ (l : List α) (a : Nat), l.foldl (fun s x => s + g x) a = a + (l.map g).sum := by
  intro l
  induction l with
  | nil => simp
  | cons x xs ih => intro a; simp [ih, Nat.add_assoc]

/-- `mapM` over `Option` succeeds exactly on pointwise successes. -/
theorem optionMapM_eq_some {α β : Type} {f : α → Option β} :
    ∀ {xs : List α} {ys : List β},
      xs.mapM f = some ys ↔ List.Forall₂ (fun x y => f x = some y) xs ys := by
  intro xs
  induction xs with
  | nil =>
    intro ys
    constructor
    · intro h
      simp only [List.mapM_nil] at h
      cases h
      exact List.Forall₂.nil
    · intro h
      cases h
      rfl
  | cons x xs ih =>
    intro ys
    constructor
    · intro h
      simp only [List.mapM_cons] at h
      cases hfx : f x with
      | none => rw [hfx] at h; simp at h
      | some y =>
        rw [hfx] at h
        cases hxs : xs.mapM f with
        | none => rw [hxs] at h; simp at h
        | some ys2 =>
          rw [hxs] at h
          simp at h
          cases h
          exact List.Forall₂.cons hfx (ih.mp hxs)
    · intro h
      cases h with
      | cons hfx hrest =>
        simp only [List.mapM_cons]
        rw [hfx, ih.mpr hrest]
        rfl

/-- The `reduce` accumulation over the child nodes' `totalTasks`, with its
`childNodes.length` seed. -/
def totalSubtasksOf (ns : List ExtendedTaskNode) : Nat :=
  ns.length + (ns.map (fun n => n.totalTasks)).sum

/-- The `reduce` accumulation over the child nodes' `completedTasks`, with
its completed-direct-children seed. -/
def completedSubtasksOf (ns : List ExtendedTaskNode) : Nat :=
  (ns.filter (fun n => n.task.isCompleted)).length +
    (ns.map (fun n => n.completedTasks)).sum

theorem mkExtendedTaskNode_def (t : TodoistTask) (d : Nat) (oid : String)
    (ns : List ExtendedTaskNode) :
    mkExtendedTaskNode t d oid ns =
      ExtendedTaskNode.mk t ns d
        (if totalSubtasksOf ns > 0 then
          mathRound (((completedSubtasksOf ns : ℚ) / (totalSubtasksOf ns : ℚ)) * 100)
         else if t.isCompleted then 100 else 0)
        (1 + totalSubtasksOf ns)
        ((if t.isCompleted then 1 else 0) + completedSubtasksOf ns)
        (t.id == oid) := by
  simp [mkExtendedTaskNode, totalSubtasksOf, completedSubtasksOf, foldl_add_map]

@[simp]
theorem buildTaskTree_zero (allTasks : List TodoistTask) (inc : Bool)
    (oid : String) (t : TodoistTask) (d : Nat) :
    buildTaskTree allTasks inc oid 0 t d = none := by
  simp [buildTaskTree]

theorem buildTaskTree_succ_eq_some {allTasks : List TodoistTask} {inc : Bool}
    {oid : String} {f : Nat} {t : TodoistTask} {d : Nat} {n : ExtendedTaskNode} :
    buildTaskTree allTasks inc oid (f + 1) t d = some n ↔
      ∃ ns, List.Forall₂ (fun c m => buildTaskTree allTasks inc oid f c (d + 1) = some m)
          (childTasks allTasks inc t) ns ∧
        n = mkExtendedTaskNode t d oid ns := by
  rw [buildTaskTree]
  cases hm : (childTasks allTasks inc t).mapM
      (fun child => buildTaskTree allTasks inc oid f child (d + 1)) with
  | none =>
    simp only [Option.some.injEq]
    constructor
    · intro h; cases h
    · rintro ⟨ns, hns, rfl⟩
      rw [optionMapM_eq_some.mpr hns] at hm
      cases hm
  | some ns =>
    simp only [Option.some.injEq]
    constructor
    · intro h
      exact ⟨ns, optionMapM_eq_some.mp hm, h.symm⟩
    · rintro ⟨ns2, hns2, rfl⟩
      have := optionMapM_eq_some.mpr hns2
      rw [this] at hm
      cases hm
      rfl

theorem forall2_mem_right {α β : Type} {R : α → β → Prop} :
    ∀ {xs : List α} {ys : List β}, List.Forall₂ R xs ys → ∀ y ∈ ys, ∃ x ∈ xs, R x y := by
  intro xs ys h
  induction h with
  | nil => intro y hy; cases hy
  | cons hR _ ih =>
    intro y hy
    rcases List.mem_cons.mp hy with rfl | hy2
    · exact ⟨_, List.mem_cons_self _ _, hR⟩
    · rcases ih y hy2 with ⟨x, hx, hRx⟩
      exact ⟨x, List.mem_cons_of_mem _ hx, hRx⟩

theorem forall2_mem_left {α β : Type} {R : α → β → Prop} :
    ∀ {xs : List α} {ys : List β}, List.Forall₂ R xs ys → ∀ x ∈ xs, ∃ y ∈ ys, R x y := by
  intro xs ys h
  induction h with
  | nil => intro x hx; cases hx
  | cons hR _ ih =>
    intro x hx
    rcases List.mem_cons.mp hx with rfl | hx2
    · exact ⟨_, List.mem_cons_self _ _, hR⟩
    · rcases ih x hx2 with ⟨y, hy, hRy⟩
      exact ⟨y, List.mem_cons_of_mem _ hy, hRy⟩

theorem buildTaskTree_task_eq {allTasks : List TodoistTask} {inc : Bool}
    {oid : String} {f : Nat} {t : TodoistTask} {d : Nat} {n : ExtendedTaskNode}
    (h : buildTaskTree allTasks inc oid f t d = some n) : n.task = t := by
  cases f with
  | zero => rw [buildTaskTree_zero] at h; cases h
  | succ f =>
    rcases buildTaskTree_succ_eq_some.mp h with ⟨ns, _, rfl⟩
    rw [mkExtendedTaskNode_def]
    rfl

/-- Bounds for the rounded percentage of a ratio in `[0, 1]`. -/
theorem mathRound_pct_bounds {q : ℚ} (h0 : 0 ≤ q) (h1 : q ≤ 1) :
    0 ≤ mathRound (q * 100) ∧ mathRound (q * 100) ≤ 100 := by
  unfold mathRound
  constructor
  · apply Int.le_floor.mpr
    push_cast
    linarith
  · have hlt : ⌊q * 100 + 1 / 2⌋ < 101 := by
      apply Int.floor_lt.mpr
      push_cast
      linarith
    omega

/-- Everything that holds of every node of a successfully built tree:
the rollup equations of `buildTaskTree` in terms of the node's own
fields, the consistency bounds, and where the children come from. -/
structure NodeFacts (allTasks : List TodoistTask) (inc : Bool) (oid : String)
    (m : ExtendedTaskNode) : Prop where
  totalTasks_eq : m.totalTasks = 1 + totalSubtasksOf m.children
  completedTasks_eq :
    m.completedTasks = (if m.task.isCompleted then 1 else 0) + completedSubtasksOf m.children
  pct_eq :
    m.completionPercentage =
      (if totalSubtasksOf m.children > 0 then
        mathRound
          (((completedSubtasksOf m.children : ℚ) / (totalSubtasksOf m.children : ℚ)) * 100)
       else if m.task.isCompleted then 100 else 0)
  orig_eq : m.isOriginalTask = (m.task.id == oid)
  completed_le : m.completedTasks ≤ m.totalTasks
  pct_nonneg : 0 ≤ m.completionPercentage
  pct_le : m.completionPercentage ≤ 100
  children_mem : ∀ c ∈ m.children, c.task ∈ childTasks allTasks inc m.task

theorem completedSubtasksOf_le (ns : List ExtendedTaskNode)
    (h : ∀ c ∈ ns, c.completedTasks ≤ c.totalTasks) :
    completedSubtasksOf ns ≤ totalSubtasksOf ns := by
  unfold completedSubtasksOf totalSubtasksOf
  have h1 : (ns.filter (fun n => n.task.isCompleted)).length ≤ ns.length :=
    List.length_filter_le _ _
  have h2 : (ns.map (fun n => n.completedTasks)).sum ≤ (ns.map (fun n => n.totalTasks)).sum :=
    List.sum_le_sum h
  omega

/-- The master invariant: every node of a successful `buildTaskTree`
result satisfies `NodeFacts`. -/
theorem buildTaskTree_nodeFacts {allTasks : List TodoistTask} {inc : Bool}
    {oid : String} :
    ∀ (f : Nat) (t : TodoistTask) (d : Nat) (n : ExtendedTaskNode),
      buildTaskTree allTasks inc oid f t d = some n →
      ∀ m ∈ n.subNodes, NodeFacts allTasks inc oid m := by
  intro f
  induction f using Nat.strong_induction_on with
  | _ f ih =>
    intro t d n hbuild m hm
    cases f with
    | zero => rw [buildTaskTree_zero] at hbuild; cases hbuild
    | succ f =>
      rcases buildTaskTree_succ_eq_some.mp hbuild with ⟨ns, hns, rfl⟩
      rw [mkExtendedTaskNode_def] at hm
      rw [subNodes_def] at hm
      simp only [ExtendedTaskNode.children_mk] at hm
      rcases List.mem_cons.mp hm with rfl | hm2
      · -- m is the freshly built node
        have hchildFacts : ∀ c ∈ ns, NodeFacts allTasks inc oid c := by
          intro c hc
          rcases forall2_mem_right hns c hc with ⟨ct, _, hcbuild⟩
          exact ih f (Nat.lt_succ_self f) ct (d + 1) c hcbuild c (self_mem_subNodes c)
        have hcle : completedSubtasksOf ns ≤ totalSubtasksOf ns :=
          completedSubtasksOf_le ns fun c hc => (hchildFacts c hc).completed_le
        constructor
        · simp
        · simp
        · simp
        · simp
        · -- completedTasks ≤ totalTasks
          simp only [ExtendedTaskNode.completedTasks_mk, ExtendedTaskNode.totalTasks_mk]
          have : (if t.isCompleted then 1 else 0) ≤ 1 := by split <;> omega
          omega
        · -- 0 ≤ pct
          simp only [ExtendedTaskNode.completionPercentage_mk]
          split
          · rename_i hpos
            have h0 : (0 : ℚ) ≤ (completedSubtasksOf ns : ℚ) / (totalSubtasksOf ns : ℚ) :=
              div_nonneg (by positivity) (by positivity)
            have h1 : (completedSubtasksOf ns : ℚ) / (totalSubtasksOf ns : ℚ) ≤ 1 := by
              apply div_le_one_of_le₀
              · exact_mod_cast hcle
              · positivity
            exact (mathRound_pct_bounds h0 h1).1
          · split <;> omega
        · -- pct ≤ 100
          simp only [ExtendedTaskNode.completionPercentage_mk]
          split
          · rename_i hpos
            have h0 : (0 : ℚ) ≤ (completedSubtasksOf ns : ℚ) / (totalSubtasksOf ns : ℚ) :=
              div_nonneg (by positivity) (by positivity)
            have h1 : (completedSubtasksOf ns : ℚ) / (totalSubtasksOf ns : ℚ) ≤ 1 := by
              apply div_le_one_of_le₀
              · exact_mod_cast hcle
              · positivity
            exact (mathRound_pct_bounds h0 h1).2
          · split <;> omega
        · -- children provenance
          simp only [ExtendedTaskNode.children_mk, ExtendedTaskNode.task_mk]
          intro c hc
          rcases forall2_mem_right hns c hc with ⟨ct, hct, hcbuild⟩
          rw [buildTaskTree_task_eq hcbuild]
          exact hct
      · -- m lies in one of the child subtrees
        rcases mem_subNodesList.mp hm2 with ⟨c, hc, hmc⟩
        rcases forall2_mem_right hns c hc with ⟨ct, _, hcbuild⟩
        exact ih f (Nat.lt_succ_self f) ct (d + 1) c hcbuild m hmc

/-- Scenario 1 of the specification: `A(id=1, parent=null, completed=false)`,
`B(id=2, parent=1, completed=true)`, `C(id=3, parent=1, completed=false)`,
hierarchy queried for id 3 with `includeCompleted = true`. -/
def sTaskA : TodoistTask :=
  { id := "1", content := "A", parentId := none, isCompleted := false }

def sTaskB : TodoistTask :=
  { id := "2", content := "B", parentId := some "1", isCompleted := true }

def sTaskC : TodoistTask :=
  { id := "3", content := "C", parentId := some "1", isCompleted := false }

def scenarioTasks : List TodoistTask := [sTaskA, sTaskB, sTaskC]

/-- The node the embedded build produces for task B in scenario 1. -/
def sNodeB : ExtendedTaskNode := .mk sTaskB [] 1 100 1 1 false

/-- The node the embedded build produces for task C in scenario 1. -/
def sNodeC : ExtendedTaskNode := .mk sTaskC [] 1 0 1 0 true

/-- The root node the embedded build produces in scenario 1: note
`totalTasks = 5` and `completedTasks = 2` for this three-task forest. -/
def sNodeA : ExtendedTaskNode := .mk sTaskA [sNodeB, sNodeC] 0 50 5 2 false

theorem scenario_buildB (f : Nat) :
    buildTaskTree scenarioTasks true "3" (f + 1) sTaskB 1 = some sNodeB := by
  simp [buildTaskTree, childTasks, scenarioTasks, sTaskA, sTaskB, sTaskC,
    mkExtendedTaskNode, sNodeB, List.mapM.loop, ExtendedTaskNode.task]

theorem scenario_buildC (f : Nat) :
    buildTaskTree scenarioTasks true "3" (f + 1) sTaskC 1 = some sNodeC := by
  simp [buildTaskTree, childTasks, scenarioTasks, sTaskA, sTaskB, sTaskC,
    mkExtendedTaskNode, sNodeC, List.mapM.loop, ExtendedTaskNode.task]

theorem scenario_buildA (f : Nat) :
    buildTaskTree scenarioTasks true "3" (f + 2) sTaskA 0 = some sNodeA := by
  have hB := scenario_buildB f
  have hC := scenario_buildC f
  simp [buildTaskTree, childTasks, scenarioTasks, sTaskA, sTaskB, sTaskC,
    List.mapM.loop, hB, hC]
  simp [mkExtendedTaskNode, sNodeA, sNodeB, sNodeC, ExtendedTaskNode.task,
    ExtendedTaskNode.totalTasks, ExtendedTaskNode.completedTasks, sTaskA, sTaskB, sTaskC]
  norm_num [mathRound, Int.floor_eq_iff]

/-- Claim C1: on scenario 1 the root's rollup counts are `totalTasks = 5`
and `completedTasks = 2`, although its two child nodes carry
`totalTasks = [1, 1]` and `completedTasks = [1, 0]`: the code's `reduce`
seeds double-count every direct child, so
`totalTasks ≠ 1 + sum(children.totalTasks) = 3` and
`completedTasks ≠ 0 + sum(children.completedTasks) = 1`, contradicting the
specified rollup. -/
theorem C1_rollup_double_counts :
    (buildTaskTree scenarioTasks true "3" 5 sTaskA 0).map
        (fun n => (n.totalTasks, n.completedTasks,
          n.children.map fun c => c.totalTasks,
          n.children.map fun c => c.completedTasks)) =
      some (5, 2, [1, 1], [1, 0]) := by
  have h : buildTaskTree scenarioTasks true "3" 5 sTaskA 0 = some sNodeA :=
    scenario_buildA 3
  rw [h]
  simp [sNodeA, sNodeB, sNodeC]

/-- Claim C2, counterexample: at the scenario-1 root the code stores
`completionPercentage = 50`, while `round(100 * completedTasks / totalTasks)`
over the node's own (subtree-including-self) counts is
`round(100 * 2 / 5) = 40` — and over the intended non-double-counted counts
`round(100 * 1 / 3) = 33`.  Either way the claimed formula fails. -/
theorem C2_pct_counterexample :
    (buildTaskTree scenarioTasks true "3" 5 sTaskA 0).map
        (fun n => n.completionPercentage) = some 50 ∧
    (buildTaskTree scenarioTasks true "3" 5 sTaskA 0).map
        (fun n => mathRound (((n.completedTasks : ℚ) / (n.totalTasks : ℚ)) * 100)) =
      some 40 ∧
    mathRound (((1 : ℚ) / (3 : ℚ)) * 100) = 33 ∧
    (50 : ℤ) ≠ 40 ∧ (50 : ℤ) ≠ 33 := by
  have h : buildTaskTree scenarioTasks true "3" 5 sTaskA 0 = some sNodeA :=
    scenario_buildA 3
  rw [h]
  refine ⟨by simp [sNodeA], ?_, by norm_num [mathRound, Int.floor_eq_iff], by decide, by decide⟩
  simp [sNodeA]
  norm_num [mathRound, Int.floor_eq_iff]

/-- Claim C2 (amended): at every node of a successful build, if
`totalTasks > 1` then `completionPercentage` is the rounded percentage of
the node's subtask aggregates excluding the node's own completion —
`round(100 * (completedTasks - self) / (totalTasks - 1))` over the stored
(double-counted) rollup fields — and a node with `totalTasks = 1` (no
children in the tree) reports `100` when its own task is completed and `0`
otherwise. -/
theorem C2_amended_pct_formula {allTasks : List TodoistTask} {inc : Bool}
    {oid : String} {f : Nat} {t : TodoistTask} {d : Nat} {n m : ExtendedTaskNode}
    (hb : buildTaskTree allTasks inc oid f t d = some n) (hm : m ∈ n.subNodes) :
    (m.totalTasks > 1 →
      m.completionPercentage =
        mathRound
          ((((m.completedTasks - (if m.task.isCompleted then 1 else 0) : ℕ)) : ℚ) /
              (((m.totalTasks - 1 : ℕ)) : ℚ) * 100)) ∧
    (m.totalTasks = 1 →
      m.completionPercentage = if m.task.isCompleted then 100 else 0) := by
  have facts := buildTaskTree_nodeFacts f t d n hb m hm
  have h1 : m.totalTasks - 1 = totalSubtasksOf m.children := by
    have := facts.totalTasks_eq
    omega
  have h2 : m.completedTasks - (if m.task.isCompleted then 1 else 0) =
      completedSubtasksOf m.children := by
    have := facts.completedTasks_eq
    cases hcompl : m.task.isCompleted <;> simp [hcompl] at this ⊢ <;> omega
  constructor
  · intro hgt
    have hpos : totalSubtasksOf m.children > 0 := by
      have := facts.totalTasks_eq
      omega
    rw [facts.pct_eq, if_pos hpos, h1, h2]
  · intro heq
    have hzero : totalSubtasksOf m.children = 0 := by
      have := facts.totalTasks_eq
      omega
    rw [facts.pct_eq, hzero]
    simp

/-- Witness for the amended claim C2 at the scenario-1 root. -/
theorem C2_amended_pct_formula_witness :
    sNodeA.totalTasks > 1 ∧
    sNodeA.completionPercentage =
      mathRound
        ((((sNodeA.completedTasks - (if sNodeA.task.isCompleted then 1 else 0) : ℕ)) : ℚ) /
            (((sNodeA.totalTasks - 1 : ℕ)) : ℚ) * 100) :=
  ⟨by decide,
    (C2_amended_pct_formula (scenario_buildA 3) (self_mem_subNodes sNodeA)).1 (by decide)⟩

theorem handleGetTaskHierarchyFromTask_inv {allTasks : List TodoistTask}
    {inc : Bool} {req : TodoistTask} {wf bf : Nat} {h : TaskHierarchy}
    (hh : handleGetTaskHierarchyFromTask allTasks inc req wf bf = some h) :
    ∃ top, findTopmostParent allTasks wf [] req = some top ∧
      buildTaskTree allTasks inc req.id bf top 0 = some h.root ∧
      h.totalTasks = h.root.totalTasks ∧
      h.completedTasks = h.root.completedTasks ∧
      h.overallCompletion =
        mathRound (((h.root.completedTasks : ℚ) / (h.root.totalTasks : ℚ)) * 100) ∧
      h.originalTaskId = req.id := by
  unfold handleGetTaskHierarchyFromTask at hh
  cases hw : findTopmostParent allTasks wf [] req with
  | none => rw [hw] at hh; cases hh
  | some top =>
    rw [hw] at hh
    dsimp only at hh
    cases hb : buildTaskTree allTasks inc req.id bf top 0 with
    | none => rw [hb] at hh; cases hh
    | some rootNode =>
      rw [hb] at hh
      dsimp only at hh
      cases hh
      exact ⟨top, rfl, hb, rfl, rfl, rfl, rfl⟩

/-- The hierarchy the embedded code returns on scenario 1 when task C is
requested. -/
def sHierarchy : TaskHierarchy :=
  { root := sNodeA
    totalTasks := 5
    completedTasks := 2
    overallCompletion := 40
    originalTaskId := "3" }

theorem scenario_hierarchy_eq :
    handleGetTaskHierarchyFromTask scenarioTasks true sTaskC 5 5 = some sHierarchy := by
  have hwalk : findTopmostParent scenarioTasks 5 [] sTaskC = some sTaskA := by
    simp [findTopmostParent, scenarioTasks, sTaskA, sTaskB, sTaskC, jsTruthy]
  have hbuild : buildTaskTree scenarioTasks true sTaskC.id 5 sTaskA 0 = some sNodeA :=
    scenario_buildA 3
  unfold handleGetTaskHierarchyFromTask
  rw [hwalk]
  dsimp only
  rw [hbuild]
  dsimp only
  simp [sHierarchy, sNodeA, sTaskC]
  norm_num [mathRound, Int.floor_eq_iff]

/-- Claim C9: every successfully returned hierarchy reconciles — at every
node `completedTasks ≤ totalTasks` and `completionPercentage ∈ [0, 100]`,
and at the top level `overallCompletion` is exactly
`round(100 * completedTasks / totalTasks)` of the returned counts. -/
theorem C9_counts_reconcile {allTasks : List TodoistTask} {inc : Bool}
    {req : TodoistTask} {wf bf : Nat} {h : TaskHierarchy}
    (hh : handleGetTaskHierarchyFromTask allTasks inc req wf bf = some h) :
    (∀ m ∈ h.root.subNodes,
      m.completedTasks ≤ m.totalTasks ∧
      0 ≤ m.completionPercentage ∧ m.completionPercentage ≤ 100) ∧
    h.completedTasks ≤ h.totalTasks ∧
    h.overallCompletion =
      mathRound (((h.completedTasks : ℚ) / (h.totalTasks : ℚ)) * 100) := by
  rcases handleGetTaskHierarchyFromTask_inv hh with
    ⟨top, _, hbuild, htot, hcomp, hoverall, _⟩
  refine ⟨?_, ?_, ?_⟩
  · intro m hm
    have facts := buildTaskTree_nodeFacts bf top 0 h.root hbuild m hm
    exact ⟨facts.completed_le, facts.pct_nonneg, facts.pct_le⟩
  · have facts := buildTaskTree_nodeFacts bf top 0 h.root hbuild h.root
      (self_mem_subNodes h.root)
    rw [htot, hcomp]
    exact facts.completed_le
  · rw [htot, hcomp]
    exact hoverall

/-- Witness for claim C9 on the scenario-1 hierarchy. -/
theorem C9_counts_reconcile_witness :
    (∀ m ∈ sHierarchy.root.subNodes,
      m.completedTasks ≤ m.totalTasks ∧
      0 ≤ m.completionPercentage ∧ m.completionPercentage ≤ 100) ∧
    sHierarchy.completedTasks ≤ sHierarchy.totalTasks ∧
    sHierarchy.overallCompletion =
      mathRound (((sHierarchy.completedTasks : ℚ) / (sHierarchy.totalTasks : ℚ)) * 100) :=
  C9_counts_reconcile scenario_hierarchy_eq

/-- Scenario 5 of the specification: two tasks that name each other as
parent. -/
def cycTaskA : TodoistTask :=
  { id := "1", content := "A", parentId := some "2", isCompleted := false }

def cycTaskB : TodoistTask :=
  { id := "2", content := "B", parentId := some "1", isCompleted := false }

def cycTasks : List TodoistTask := [cycTaskA, cycTaskB]

theorem cyc_children_A : childTasks cycTasks true cycTaskA = [cycTaskB] := by decide

theorem cyc_children_B : childTasks cycTasks true cycTaskB = [cycTaskA] := by decide

/-- On the two-task parent cycle the downward build never completes,
whatever the fuel: the recursion `A → B → A → ...` is infinite. -/
theorem cyc_build_diverges :
    ∀ fuel : Nat, (∀ d, buildTaskTree cycTasks true "1" fuel cycTaskA d = none) ∧
      (∀ d, buildTaskTree cycTasks true "1" fuel cycTaskB d = none) := by
  intro fuel
  induction fuel with
  | zero => exact ⟨fun d => buildTaskTree_zero _ _ _ _ _, fun d => buildTaskTree_zero _ _ _ _ _⟩
  | succ f ih =>
    constructor
    · intro d
      cases hb : buildTaskTree cycTasks true "1" (f + 1) cycTaskA d with
      | none => rfl
      | some n =>
        exfalso
        rcases buildTaskTree_succ_eq_some.mp hb with ⟨ns, hns, _⟩
        rw [cyc_children_A] at hns
        cases hns with
        | cons hhead _ => rw [ih.2 (d + 1)] at hhead; cases hhead
    · intro d
      cases hb : buildTaskTree cycTasks true "1" (f + 1) cycTaskB d with
      | none => rfl
      | some n =>
        exfalso
        rcases buildTaskTree_succ_eq_some.mp hb with ⟨ns, hns, _⟩
        rw [cyc_children_B] at hns
        cases hns with
        | cons hhead _ => rw [ih.1 (d + 1)] at hhead; cases hhead

/-- Claim C3: on the parent cycle `A ↔ B` the upward ancestor walk does
stop (the visited set fires and task A is treated as topmost), but the
downward recursive build from A never finishes for any recursion budget —
the source, which has no cycle guard in `buildTaskTree`, recurses
forever. -/
theorem C3_walk_stops_but_build_recurses_forever :
    findTopmostParent cycTasks 10 [] cycTaskA = some cycTaskA ∧
    (∀ fuel : Nat, buildTaskTree cycTasks true "1" fuel cycTaskA 0 = none) ∧
    (∀ walkFuel buildFuel : Nat,
      handleGetTaskHierarchyFromTask cycTasks true cycTaskA walkFuel buildFuel = none) := by
  have hwalk : findTopmostParent cycTasks 10 [] cycTaskA = some cycTaskA := by
    simp [findTopmostParent, cycTasks, cycTaskA, cycTaskB, jsTruthy]
  refine ⟨hwalk, fun fuel => (cyc_build_diverges fuel).1 0, ?_⟩
  intro wf bf
  unfold handleGetTaskHierarchyFromTask
  cases hw : findTopmostParent cycTasks wf [] cycTaskA with
  | none => rfl
  | some top =>
    dsimp only
    have htop : top = cycTaskA ∨ top = cycTaskB := by
      have hmemo : ∀ fuel visited t r, t = cycTaskA ∨ t = cycTaskB →
          findTopmostParent cycTasks fuel visited t = some r →
          r = cycTaskA ∨ r = cycTaskB := by
        intro fuel
        induction fuel with
        | zero => intro visited t r _ hr; rw [findTopmostParent] at hr; cases hr
        | succ f ih =>
          intro visited t r ht hr
          rw [findTopmostParent] at hr
          by_cases hguard :
              (jsTruthy t.parentId && !(visited.contains t.id)) = true
          · rw [if_pos hguard] at hr
            cases hfind : cycTasks.find? (fun u => some u.id == t.parentId) with
            | none => rw [hfind] at hr; cases hr; exact ht
            | some parent =>
              rw [hfind] at hr
              have hpmem := List.mem_of_find?_eq_some hfind
              have hp2 : parent = cycTaskA ∨ parent = cycTaskB := by
                simpa [cycTasks] using hpmem
              exact ih _ parent r hp2 hr
          · rw [if_neg hguard] at hr
            cases hr
            exact ht
      exact hmemo wf [] cycTaskA top (Or.inl rfl) hw
    rcases htop with rfl | rfl
    · rw [show cycTaskA.id = "1" from rfl, (cyc_build_diverges bf).1 0]
    · rw [show cycTaskA.id = "1" from rfl, (cyc_build_diverges bf).2 0]

/-- Every non-root node of a successful build hangs under some parent node
of the same tree. -/
theorem build_parent_exists {allTasks : List TodoistTask} {inc : Bool} {oid : String} :
    ∀ (f : Nat) (t : TodoistTask) (d : Nat) (n : ExtendedTaskNode),
      buildTaskTree allTasks inc oid f t d = some n →
      ∀ m ∈ subNodesList n.children, ∃ p ∈ n.subNodes, m ∈ p.children := by
  intro f
  induction f using Nat.strong_induction_on with
  | _ f ih =>
    intro t d n hb m hm
    cases f with
    | zero => rw [buildTaskTree_zero] at hb; cases hb
    | succ f =>
      rcases buildTaskTree_succ_eq_some.mp hb with ⟨ns, hns, rfl⟩
      rw [mkExtendedTaskNode_def] at hm ⊢
      simp only [ExtendedTaskNode.children_mk] at hm
      rcases mem_subNodesList.mp hm with ⟨c, hc, hmc⟩
      rw [subNodes_def c] at hmc
      rcases List.mem_cons.mp hmc with rfl | hdeep
      · refine ⟨ExtendedTaskNode.mk t ns d _ _ _ _, self_mem_subNodes _, ?_⟩
        simpa using hc
      · rcases forall2_mem_right hns c hc with ⟨ct, _, hcb⟩
        rcases ih f (Nat.lt_succ_self f) ct (d + 1) c hcb m hdeep with ⟨p, hp, hmp⟩
        refine ⟨p, ?_, hmp⟩
        rw [subNodes_def]
        exact List.mem_cons_of_mem _ (mem_subNodesList.mpr ⟨c, hc, hp⟩)

/-- Every non-root node of a successful build is a filtered child of its
parent node: its task is in `allTasks`, its `parentId` matches the parent
node's task id, and it passed the `includeCompleted` filter. -/
theorem build_child_edge {allTasks : List TodoistTask} {inc : Bool} {oid : String}
    {f : Nat} {t : TodoistTask} {d : Nat} {n : ExtendedTaskNode}
    (hb : buildTaskTree allTasks inc oid f t d = some n) :
    ∀ m ∈ subNodesList n.children, ∃ p ∈ n.subNodes,
      m ∈ p.children ∧ m.task ∈ allTasks ∧
      m.task.parentId = some p.task.id ∧
      (inc || !m.task.isCompleted) = true := by
  intro m hm
  rcases build_parent_exists f t d n hb m hm with ⟨p, hp, hmp⟩
  have facts := buildTaskTree_nodeFacts f t d n hb p hp
  have hedge := facts.children_mem m hmp
  rw [childTasks] at hedge
  rcases List.mem_filter.mp hedge with ⟨hmem, hcond⟩
  simp only [Bool.and_eq_true] at hcond
  exact ⟨p, hp, hmp, hmem, by simpa using hcond.1, hcond.2⟩

/-- A task set where the topmost ancestor itself is completed and has an
incomplete child. -/
def prRoot : TodoistTask :=
  { id := "1", content := "P", parentId := none, isCompleted := true }

def prChild : TodoistTask :=
  { id := "2", content := "Q", parentId := some "1", isCompleted := false }

def prTasks : List TodoistTask := [prRoot, prChild]

def prChildNode : ExtendedTaskNode := .mk prChild [] 1 0 1 0 false

def prRootNode : ExtendedTaskNode := .mk prRoot [prChildNode] 0 0 3 1 true

theorem pr_buildChild (f : Nat) :
    buildTaskTree prTasks false "1" (f + 1) prChild 1 = some prChildNode := by
  simp [buildTaskTree, childTasks, prTasks, prRoot, prChild,
    mkExtendedTaskNode, prChildNode, List.mapM.loop, ExtendedTaskNode.task]

theorem pr_buildRoot (f : Nat) :
    buildTaskTree prTasks false "1" (f + 2) prRoot 0 = some prRootNode := by
  have hc := pr_buildChild f
  simp [buildTaskTree, childTasks, prTasks, prRoot, prChild, List.mapM.loop, hc]
  simp [mkExtendedTaskNode, prRootNode, prChildNode, ExtendedTaskNode.task,
    ExtendedTaskNode.totalTasks, ExtendedTaskNode.completedTasks, prRoot, prChild]
  norm_num [mathRound, Int.floor_eq_iff]

/-- Claim C6, counterexample: with `includeCompleted = false`, requesting
the completed top-level task P (which has the incomplete child Q) returns a
tree whose root task is completed and which still contains Q — the
completed task is not excluded from the returned tree, because the root is
never filtered. -/
theorem C6_completed_root_not_pruned :
    (handleGetTaskHierarchyFromTask prTasks false prRoot 5 5).map
        (fun h => (h.root.task.isCompleted, h.root.subNodes.map fun m => m.task.id)) =
      some (true, ["1", "2"]) := by
  have hwalk : findTopmostParent prTasks 5 [] prRoot = some prRoot := by
    simp [findTopmostParent, prTasks, prRoot, prChild, jsTruthy]
  have hbuild : buildTaskTree prTasks false prRoot.id 5 prRoot 0 = some prRootNode :=
    pr_buildRoot 3
  unfold handleGetTaskHierarchyFromTask
  rw [hwalk]
  dsimp only
  rw [hbuild]
  dsimp only
  simp [prRootNode, prChildNode, prRoot, prChild, ExtendedTaskNode.subNodes, subNodesList]

/-- Claim C6 (amended): with `includeCompleted = false` every node other
than the root of a successful build has an incomplete task (a completed
descendant is pruned before its subtree is ever visited), and — under
unique task ids — a completed task `c` other than the build root never
appears in the tree, nor does any task `g` whose `parentId` names `c`
(unless `g` is itself the build root).  The root itself is never filtered
and may be completed. -/
theorem C6_amended_structural_pruning {allTasks : List TodoistTask} {oid : String}
    {f : Nat} {t : TodoistTask} {d : Nat} {n : ExtendedTaskNode}
    (hb : buildTaskTree allTasks false oid f t d = some n) :
    (∀ m ∈ subNodesList n.children, m.task.isCompleted = false) ∧
    ((allTasks.map fun u => u.id).Nodup →
      ∀ c ∈ allTasks, c.isCompleted = true → c.id ≠ t.id →
        (∀ m ∈ n.subNodes, m.task.id ≠ c.id) ∧
        (∀ g ∈ allTasks, g.parentId = some c.id → g.id ≠ t.id →
          ∀ m ∈ n.subNodes, m.task.id ≠ g.id)) := by
  have hincomplete : ∀ m ∈ subNodesList n.children, m.task.isCompleted = false := by
    intro m hm
    rcases build_child_edge hb m hm with ⟨p, _, _, _, _, hfilter⟩
    simpa using hfilter
  refine ⟨hincomplete, ?_⟩
  intro hnodup c hcmem hccomp hcne
  have hinj := List.inj_on_of_nodup_map hnodup
  have habsent : ∀ m ∈ n.subNodes, m.task.id ≠ c.id := by
    intro m hm heq
    rw [subNodes_def] at hm
    rcases List.mem_cons.mp hm with rfl | hdeep
    · rw [buildTaskTree_task_eq hb] at heq
      exact hcne heq.symm
    · rcases build_child_edge hb m hdeep with ⟨_, _, _, hmem, _, _⟩
      have hmc : m.task = c := hinj hmem hcmem heq
      have hic := hincomplete m hdeep
      rw [hmc] at hic
      rw [hic] at hccomp
      cases hccomp
  refine ⟨habsent, ?_⟩
  intro g hgmem hgpar hgne m hm heq
  rw [subNodes_def] at hm
  rcases List.mem_cons.mp hm with rfl | hdeep
  · rw [buildTaskTree_task_eq hb] at heq
    exact hgne heq.symm
  · rcases build_child_edge hb m hdeep with ⟨p, hp, _, hmem, hppar, _⟩
    have hmg : m.task = g := hinj hmem hgmem heq
    rw [hmg, hgpar] at hppar
    have hpc : p.task.id = c.id := by
      injection hppar with h2
      exact h2.symm
    exact habsent p hp hpc

/-- Witness for the amended claim C6 on the completed-root task set. -/
theorem C6_amended_structural_pruning_witness :
    (∀ m ∈ subNodesList prRootNode.children, m.task.isCompleted = false) ∧
    ((prTasks.map fun u => u.id).Nodup →
      ∀ c ∈ prTasks, c.isCompleted = true → c.id ≠ prRoot.id →
        (∀ m ∈ prRootNode.subNodes, m.task.id ≠ c.id) ∧
        (∀ g ∈ prTasks, g.parentId = some c.id → g.id ≠ prRoot.id →
          ∀ m ∈ prRootNode.subNodes, m.task.id ≠ g.id)) :=
  C6_amended_structural_pruning (pr_buildRoot 3)

theorem find?_map_replace {T : Type} (k : String) (e : CacheEntry T) :
    ∀ m : List (String × CacheEntry T),
      (m.find? fun p => p.1 == k).isSome = true →
      ((m.map fun p => if p.1 == k then (k, e) else p).find? fun p => p.1 == k) =
        some (k, e) := by
  intro m
  induction m with
  | nil => intro h; simp at h
  | cons a rest ih =>
    intro h
    by_cases hak : (a.1 == k) = true
    · rw [List.map_cons]
      have hhead : (if (a.1 == k) = true then (k, e) else a) = (k, e) := by
        rw [if_pos hak]
      rw [hhead]
      exact List.find?_cons_of_pos _ (by simp)
    · have hstep : List.find? (fun p => p.1 == k) (a :: rest) =
          List.find? (fun p => p.1 == k) rest := List.find?_cons_of_neg _ hak
      rw [hstep] at h
      rw [List.map_cons]
      have hhead : (if (a.1 == k) = true then (k, e) else a) = a := by
        rw [if_neg hak]
      rw [hhead]
      have hstep2 : List.find? (fun p => p.1 == k)
            (a :: (rest.map fun p => if p.1 == k then (k, e) else p)) =
          List.find? (fun p => p.1 == k)
            (rest.map fun p => if p.1 == k then (k, e) else p) :=
        List.find?_cons_of_neg _ hak
      rw [hstep2]
      exact ih h

theorem find?_append_right {T : Type} (k : String) (e : CacheEntry T) :
    ∀ m : List (String × CacheEntry T),
      (m.find? fun p => p.1 == k) = none →
      ((m ++ [(k, e)]).find? fun p => p.1 == k) = some (k, e) := by
  intro m
  induction m with
  | nil =>
    intro _
    rw [List.nil_append]
    exact List.find?_cons_of_pos _ (by simp)
  | cons a rest ih =>
    intro h
    by_cases hak : (a.1 == k) = true
    · have hstep : List.find? (fun p => p.1 == k) (a :: rest) = some a :=
        List.find?_cons_of_pos _ hak
      rw [hstep] at h
      cases h
    · have hstep : List.find? (fun p => p.1 == k) (a :: rest) =
          List.find? (fun p => p.1 == k) rest := List.find?_cons_of_neg _ hak
      rw [hstep] at h
      rw [List.cons_append]
      have hstep2 : List.find? (fun p => p.1 == k) (a :: (rest ++ [(k, e)])) =
          List.find? (fun p => p.1 == k) (rest ++ [(k, e)]) :=
        List.find?_cons_of_neg _ hak
      rw [hstep2]
      exact ih h

/-- After a `Map.set`, a `Map.get` of the same key sees exactly the stored
entry. -/
theorem jsMapGet_jsMapSet_self {T : Type} (m : List (String × CacheEntry T))
    (k : String) (e : CacheEntry T) : jsMapGet (jsMapSet m k e) k = some e := by
  unfold jsMapSet
  by_cases h : (m.find? fun p => p.1 == k).isSome = true
  · rw [if_pos h]
    unfold jsMapGet
    rw [find?_map_replace k e m h]
    rfl
  · rw [if_neg h]
    unfold jsMapGet
    have hnone : (m.find? fun p => p.1 == k) = none := by
      rcases hf : m.find? fun p => p.1 == k with _ | v
      · exact hf
      · rw [hf] at h; simp at h
    rw [find?_append_right k e m hnone]
    rfl

theorem SimpleCache.evict_config {T : Type} (c : SimpleCache T) (now : Int) :
    (c.evictLeastRecentlyUsed now).config = c.config ∧
    (c.evictLeastRecentlyUsed now).missCount = c.missCount ∧
    (c.evictLeastRecentlyUsed now).defaultTtl = c.defaultTtl := by
  unfold SimpleCache.evictLeastRecentlyUsed
  split
  · exact ⟨rfl, rfl, rfl⟩
  · dsimp only
    split <;> exact ⟨rfl, rfl, rfl⟩

theorem SimpleCache.set_config {T : Type} (c : SimpleCache T) (k : String)
    (v : T) (ttl : Option Int) (now : Int) :
    (c.set k v ttl now).config = c.config ∧
    (c.set k v ttl now).missCount = c.missCount := by
  unfold SimpleCache.set
  rcases hms : c.config.maxSize with _ | maxSize
  · exact ⟨rfl, rfl⟩
  · dsimp only
    split
    · exact ⟨(SimpleCache.evict_config c now).1, (SimpleCache.evict_config c now).2.1⟩
    · exact ⟨rfl, rfl⟩

/-- The entry stored by `set key data (some ttl) now0` is found by a raw
map lookup, with exactly the given ttl and timestamp. -/
theorem SimpleCache.set_entry {T : Type} (c : SimpleCache T) (key : String)
    (data : T) (ttl now0 : Int) :
    jsMapGet (c.set key data (some ttl) now0).cache key =
      some { data := data, timestamp := now0, ttl := ttl,
             accessCount := 0, lastAccessed := now0 } := by
  unfold SimpleCache.set
  rcases hms : c.config.maxSize with _ | maxSize
  · dsimp only
    exact jsMapGet_jsMapSet_self _ _ _
  · dsimp only
    split
    · exact jsMapGet_jsMapSet_self _ _ _
    · exact jsMapGet_jsMapSet_self _ _ _

/-- Claim C8, counterexample: `set` with `ttl = 0` followed by a `get` at
the same millisecond serves the stored value and records a hit — expiry is
the strict test `now - timestamp > ttl`, so a zero TTL is not "never
served". -/
theorem C8_zero_ttl_same_tick_serves :
    (((mkSimpleCache (List TodoistTask) 30000).set "k" [sTaskA] (some 0) 100).get "k" 100).1 =
      some [sTaskA] ∧
    (((mkSimpleCache (List TodoistTask) 30000).set "k" [sTaskA] (some 0) 100).get "k" 100).2.hitCount = 1 := by
  constructor <;> rfl

/-- Claim C8 (amended): after `set(key, value, ttl)` with `ttl ≤ 0`, a
`get(key)` at any strictly later time — or at any subsequent time at all
when `ttl < 0` — returns `null` and counts a miss; only a `get` in the very
same millisecond as a `set` with `ttl = 0` can still serve the value. -/
theorem C8_amended_nonpositive_ttl {T : Type} (c : SimpleCache T) (key : String)
    (data : T) (ttl now0 now : Int) (hstats : c.config.enableStats = true)
    (httl : ttl ≤ 0) (horder : now0 ≤ now) (hstrict : ttl < 0 ∨ now0 < now) :
    ((c.set key data (some ttl) now0).get key now).1 = none ∧
    ((c.set key data (some ttl) now0).get key now).2.missCount =
      (c.set key data (some ttl) now0).missCount + 1 := by
  have hentry := SimpleCache.set_entry c key data ttl now0
  have hexpired : now - now0 > ttl := by omega
  have hcfg := (SimpleCache.set_config c key data (some ttl) now0).1
  unfold SimpleCache.get
  rw [hentry]
  dsimp only
  rw [if_pos hexpired]
  rw [hcfg, hstats]
  exact ⟨rfl, rfl⟩

/-- Witness for the amended claim C8: a negative-ttl entry misses even in
the same millisecond, with the miss counted. -/
theorem C8_amended_nonpositive_ttl_witness :
    (((mkSimpleCache (List TodoistTask) 30000).set "k" [sTaskA] (some (-1)) 100).get "k" 100).1 =
      none ∧
    (((mkSimpleCache (List TodoistTask) 30000).set "k" [sTaskA] (some (-1)) 100).get "k" 100).2.missCount =
      ((mkSimpleCache (List TodoistTask) 30000).set "k" [sTaskA] (some (-1)) 100).missCount + 1 :=
  C8_amended_nonpositive_ttl (mkSimpleCache (List TodoistTask) 30000) "k" [sTaskA]
    (-1) 100 100 rfl (by decide) (by decide) (Or.inl (by decide))

/-- Claim C10: for an entry that is expired at `now` but still stored,
`has` already reports `false`, yet `delete` still returns `true` and
`size` still counts it — `delete` and `size` consult the raw map with no
TTL check (and the `delete` does remove the entry). -/
theorem C10_delete_size_ignore_ttl {T : Type} (c : SimpleCache T) (k : String)
    (e : CacheEntry T) (now : Int) (hfind : jsMapGet c.cache k = some e)
    (hexp : now - e.timestamp > e.ttl) :
    (c.has k now).1 = false ∧
    (c.delete k).1 = true ∧
    1 ≤ c.size ∧
    jsMapGet ((c.delete k).2).cache k = none := by
  have hfindSome : ∃ p, c.cache.find? (fun q => q.1 == k) = some p := by
    unfold jsMapGet at hfind
    rcases hf : c.cache.find? fun q => q.1 == k with _ | p
    · rw [hf] at hfind; cases hfind
    · exact ⟨p, hf⟩
  rcases hfindSome with ⟨p, hp⟩
  refine ⟨?_, ?_, ?_, ?_⟩
  · unfold SimpleCache.has
    rw [hfind]
    dsimp only
    rw [if_pos hexp]
  · unfold SimpleCache.delete jsMapDelete
    rw [hp]
    rfl
  · have hmem := List.mem_of_find?_eq_some hp
    unfold SimpleCache.size
    rcases hc : c.cache with _ | ⟨a, rest⟩
    · rw [hc] at hmem; cases hmem
    · simp
  · unfold SimpleCache.delete jsMapDelete jsMapGet
    dsimp only
    have hnone : ((c.cache.filter fun q => !(q.1 == k)).find? fun q => q.1 == k) = none := by
      apply List.find?_eq_none.mpr
      intro x hx
      have := (List.mem_filter.mp hx).2
      simpa using this
    rw [hnone]
    rfl

/-- Witness for claim C10: a 30 s entry written at time 0 and observed at
time 50000. -/
theorem C10_delete_size_ignore_ttl_witness :
    ((((mkSimpleCache (List TodoistTask) 30000).set "k" [sTaskA] none 0)).has "k" 50000).1 = false ∧
    ((((mkSimpleCache (List TodoistTask) 30000).set "k" [sTaskA] none 0)).delete "k").1 = true ∧
    1 ≤ (((mkSimpleCache (List TodoistTask) 30000).set "k" [sTaskA] none 0)).size ∧
    jsMapGet (((((mkSimpleCache (List TodoistTask) 30000).set "k" [sTaskA] none 0)).delete "k").2).cache "k" = none :=
  C10_delete_size_ignore_ttl _ "k"
    { data := [sTaskA], timestamp := 0, ttl := 30000, accessCount := 0, lastAccessed := 0 }
    50000 (by rfl) (by decide)

/-- A stale full-task-set entry sitting in the subtask module's cache. -/
def c7StaleTasks : List TodoistTask := [sTaskA, sTaskB]

def c7State : TaskCaches :=
  { subtaskTaskCache :=
      (mkSimpleCache (List TodoistTask) 30000).set "todoist_tasks" c7StaleTasks none 1000
    tasksCache := mkSimpleCache (List TodoistTask) 30000 }

/-- Claim C7, counterexample: `handleCreateTask` clears only the
task-handlers module's "tasks" cache; the subtask module's
`todoist_tasks` entry — the one `findTask` consults for name lookups —
survives the mutation and is still served 500 ms later. -/
theorem C7_create_task_leaves_stale_lookup_cache :
    findTaskCacheLookup (handleCreateTaskCacheEffect c7State) 1500 = some c7StaleTasks := by
  rfl

/-- Claim C7 (amended): each mutating handler clears its own module's task
cache before returning — after a task-handler mutation every get on the
"tasks" cache misses, and after a subtask-handler mutation every get on
the subtask module cache (in particular the `todoist_tasks` name-lookup
entry) misses. -/
theorem C7_amended_own_module_invalidation (s : TaskCaches) (k : String) (now : Int) :
    ((handleCreateTaskCacheEffect s).tasksCache.get k now).1 = none ∧
    ((handleCreateSubtaskCacheEffect s).subtaskTaskCache.get k now).1 = none ∧
    findTaskCacheLookup (handleCreateSubtaskCacheEffect s) now = none := by
  refine ⟨?_, ?_, ?_⟩ <;>
    simp [handleCreateTaskCacheEffect, handleCreateSubtaskCacheEffect,
      findTaskCacheLookup, SimpleCache.get, SimpleCache.clear, jsMapGet]

def mTask : TodoistTask :=
  { id := "10", content := "Buy milk", parentId := none, isCompleted := false }

/-- Claim C4, counterexample: an unresolvable name raises
`TaskNotFoundError` inside `findTask`, but `handleGetTaskHierarchy`'s
catch-all hands it to `ErrorHandler.handleAPIError`, so the caller receives
a `TodoistAPIError` ("Failed to getTaskHierarchy", code
`TODOIST_API_ERROR`, status 500) — not the Task Not Found condition
unchanged. -/
theorem C4_not_found_reaches_caller_wrapped :
    handleGetTaskHierarchy (fun _ => .error (mkValidationError "never used"))
        none [mTask] none (some "zzz") true 5 5 =
      some (.error (mkTodoistAPIError "Failed to getTaskHierarchy")) ∧
    (mkTodoistAPIError "Failed to getTaskHierarchy").name ≠ "TaskNotFoundError" ∧
    (mkTodoistAPIError "Failed to getTaskHierarchy").code ≠ "TASK_NOT_FOUND" ∧
    (mkTodoistAPIError "Failed to getTaskHierarchy").statusCode = 500 := by
  exact ⟨rfl, by decide, by decide, rfl⟩

/-- Claim C4 (amended): when a name-based `requestedTaskRef` matches no
task (no case-insensitive substring match), `handleGetTaskHierarchy`
raises Task Not Found internally but returns to the caller the wrapped
`TodoistAPIError("Failed to getTaskHierarchy")` produced by the
centralized error handler (assuming the constructed message triggers
neither of the handler's authentication/validation keyword scans); the
call produces only that error and never a partial hierarchy. -/
theorem C4_amended_not_found_wrapped
    (getTaskById : String → Except TodoistMCPError TodoistTask)
    (cachedTasks : Option (List TodoistTask)) (remoteTasks : List TodoistTask)
    (task_name : String) (inc : Bool) (wf bf : Nat)
    (hname : task_name ≠ "")
    (hnomatch : ∀ t ∈ cachedTasks.getD remoteTasks,
      jsIncludes (strToLower t.content) (strToLower task_name) = false)
    (hnoauth : isAuthenticationError
      (mkTaskNotFoundError ("Task not found: " ++ task_name)) = false)
    (hnovalid : isValidationErrorCheck
      (mkTaskNotFoundError ("Task not found: " ++ task_name)) = false) :
    handleGetTaskHierarchy getTaskById cachedTasks remoteTasks none (some task_name)
        inc wf bf =
      some (.error (mkTodoistAPIError "Failed to getTaskHierarchy")) := by
  have htruthy : jsTruthy (some task_name) = true := by
    simp [jsTruthy, hname]
  have hfind : ((cachedTasks.getD remoteTasks).find? fun t =>
      jsIncludes (strToLower t.content) (strToLower task_name)) = none :=
    List.find?_eq_none.mpr fun t ht => by rw [hnomatch t ht]; exact Bool.false_ne_true
  have hfindTask : findTask getTaskById cachedTasks remoteTasks none (some task_name) =
      .error (mkTaskNotFoundError ("Task not found: " ++ task_name)) := by
    unfold findTask
    simp [htruthy, jsTruthy, hfind, jsOrDisplay]
    simp [hname, mkTaskNotFoundError]
  unfold handleGetTaskHierarchy
  rw [hfindTask]
  dsimp only
  unfold handleAPIError
  rw [hnoauth, hnovalid]
  rfl

/-- Witness for the amended claim C4 at a concrete unresolvable name. -/
theorem C4_amended_not_found_wrapped_witness :
    handleGetTaskHierarchy (fun _ => .error (mkValidationError "never used"))
        none [mTask] none (some "zzz") true 5 5 =
      some (.error (mkTodoistAPIError "Failed to getTaskHierarchy")) :=
  C4_amended_not_found_wrapped (fun _ => .error (mkValidationError "never used"))
    none [mTask] "zzz" true 5 5 (by decide)
    (by intro t ht; fin_cases ht; decide) (by decide) (by decide)

/-- `DescChain allTasks inc t x k`: `x` is reachable from `t` in exactly
`k` downward steps of the (filtered) child relation `buildTaskTree`
recurses on. -/
inductive DescChain (allTasks : List TodoistTask) (inc : Bool) :
    TodoistTask → TodoistTask → Nat → Prop where
  | refl (t : TodoistTask) : DescChain allTasks inc t t 0
  | step {t c x : TodoistTask} {k : Nat} :
      c ∈ childTasks allTasks inc t → DescChain allTasks inc c x k →
      DescChain allTasks inc t x (k + 1)

theorem childTasks_mem_elim {allTasks : List TodoistTask} {inc : Bool}
    {t c : TodoistTask} (h : c ∈ childTasks allTasks inc t) :
    c ∈ allTasks ∧ c.parentId = some t.id := by
  rcases List.mem_filter.mp h with ⟨hmem, hcond⟩
  simp only [Bool.and_eq_true] at hcond
  exact ⟨hmem, by simpa using hcond.1⟩

theorem DescChain.target_mem {allTasks : List TodoistTask} {inc : Bool}
    {a b : TodoistTask} {k : Nat} (h : DescChain allTasks inc a b k)
    (ha : a ∈ allTasks) : b ∈ allTasks := by
  induction h with
  | refl => exact ha
  | step hc _ ih => exact ih (childTasks_mem_elim hc).1

theorem DescChain.trans {allTasks : List TodoistTask} {inc : Bool}
    {a b c : TodoistTask} {p q : Nat} (h1 : DescChain allTasks inc a b p)
    (h2 : DescChain allTasks inc b c q) : DescChain allTasks inc a c (p + q) := by
  induction h1 with
  | refl => simpa using h2
  | step hc _ ih =>
    have hstep := DescChain.step hc (ih h2)
    simpa [Nat.add_right_comm] using hstep

theorem DescChain.pump {allTasks : List TodoistTask} {inc : Bool}
    {t : TodoistTask} {p : Nat} (h : DescChain allTasks inc t t p) :
    ∀ r : Nat, DescChain allTasks inc t t (r * p) := by
  intro r
  induction r with
  | zero => simpa using DescChain.refl t
  | succ r ih =>
    have := ih.trans h
    simpa [Nat.succ_mul] using this

/-- Fuel bounds every downward chain of a successful build: there is no
chain of length `≥ fuel` from the build root, in particular no cycle. -/
theorem buildTaskTree_chain_bound {allTasks : List TodoistTask} {inc : Bool}
    {oid : String} :
    ∀ (f : Nat) (t : TodoistTask) (d : Nat) (n : ExtendedTaskNode),
      buildTaskTree allTasks inc oid f t d = some n →
      ∀ (x : TodoistTask) (k : Nat), DescChain allTasks inc t x k → k < f := by
  intro f
  induction f using Nat.strong_induction_on with
  | _ f ih =>
    intro t d n hb x k hchain
    cases f with
    | zero => rw [buildTaskTree_zero] at hb; cases hb
    | succ f =>
      cases hchain with
      | refl => omega
      | step hc hrest =>
        rcases buildTaskTree_succ_eq_some.mp hb with ⟨ns, hns, rfl⟩
        rcases forall2_mem_left hns _ hc with ⟨nc, _, hncb⟩
        have := ih f (Nat.lt_succ_self f) _ (d + 1) nc hncb x _ hrest
        omega

/-- Every node of a successful build lies at the end of a downward chain
from the build root. -/
theorem buildTaskTree_subNode_chain {allTasks : List TodoistTask} {inc : Bool}
    {oid : String} :
    ∀ (f : Nat) (t : TodoistTask) (d : Nat) (n : ExtendedTaskNode),
      buildTaskTree allTasks inc oid f t d = some n →
      ∀ m ∈ n.subNodes, ∃ k, DescChain allTasks inc t m.task k := by
  intro f
  induction f using Nat.strong_induction_on with
  | _ f ih =>
    intro t d n hb m hm
    cases f with
    | zero => rw [buildTaskTree_zero] at hb; cases hb
    | succ f =>
      rcases buildTaskTree_succ_eq_some.mp hb with ⟨ns, hns, rfl⟩
      rw [mkExtendedTaskNode_def] at hm
      rw [subNodes_def] at hm
      simp only [ExtendedTaskNode.children_mk] at hm
      rcases List.mem_cons.mp hm with rfl | hdeep
      · exact ⟨0, by simpa using DescChain.refl t⟩
      · rcases mem_subNodesList.mp hdeep with ⟨nc, hnc, hmnc⟩
        rcases forall2_mem_right hns nc hnc with ⟨c, hcmem, hcb⟩
        rcases ih f (Nat.lt_succ_self f) c (d + 1) nc hcb m hmnc with ⟨k, hk⟩
        exact ⟨k + 1, DescChain.step hcmem hk⟩

/-- With unique ids, `find?` by a member's id returns exactly that
member. -/
theorem find?_by_id_unique {allTasks : List TodoistTask}
    (hids : (allTasks.map fun u => u.id).Nodup) {a : TodoistTask}
    (ha : a ∈ allTasks) :
    (allTasks.find? fun u => u.id == a.id) = some a := by
  induction allTasks with
  | nil => cases ha
  | cons b rest ih =>
    rcases List.mem_cons.mp ha with rfl | hrest
    · exact List.find?_cons_of_pos _ (by simp)
    · rw [List.map_cons, List.nodup_cons] at hids
      have hbne : ¬(b.id == a.id) = true := by
        intro hbeq
        have heq : b.id = a.id := by simpa using hbeq
        apply hids.1
        rw [List.mem_map]
        exact ⟨a, hrest, heq.symm⟩
      have hstep : List.find? (fun u => u.id == a.id) (b :: rest) =
          List.find? (fun u => u.id == a.id) rest :=
        List.find?_cons_of_neg _ hbne
      rw [hstep]
      exact ih hids.2 hrest

/-- The unique one-step-up lookup: the task whose id the `parentId` of `x`
names. -/
def parentLookup (allTasks : List TodoistTask) (x : TodoistTask) :
    Option TodoistTask :=
  match x.parentId with
  | none => none
  | some pid => allTasks.find? fun u => u.id == pid

def iterParent (allTasks : List TodoistTask) : Nat → TodoistTask → Option TodoistTask
  | 0, x => some x
  | k + 1, x => (iterParent allTasks k x).bind (parentLookup allTasks)

/-- With unique ids, a downward chain determinizes upward: walking
`parentLookup` from the chain's end recovers its start. -/
theorem DescChain.iter_eq {allTasks : List TodoistTask} {inc : Bool}
    (hids : (allTasks.map fun u => u.id).Nodup) :
    ∀ {a b : TodoistTask} {k : Nat}, DescChain allTasks inc a b k →
      a ∈ allTasks → iterParent allTasks k b = some a := by
  intro a b k h
  induction h with
  | refl => intro _; rfl
  | step hc hrest ih =>
    intro ha
    rename_i t c x k
    have hcmem := childTasks_mem_elim hc
    have hiter : iterParent allTasks k x = some c := ih hcmem.1
    show (iterParent allTasks k x).bind (parentLookup allTasks) = some t
    rw [hiter]
    show parentLookup allTasks c = some t
    unfold parentLookup
    rw [hcmem.2]
    exact find?_by_id_unique hids ha

/-- A chain of length `p + q` splits at distance `p` from the top. -/
theorem DescChain.decompose {allTasks : List TodoistTask} {inc : Bool} :
    ∀ {p q : Nat} {a x : TodoistTask}, DescChain allTasks inc a x (p + q) →
      ∃ y, DescChain allTasks inc a y p ∧ DescChain allTasks inc y x q := by
  intro p
  induction p with
  | zero => intro q a x h; exact ⟨a, DescChain.refl a, by simpa using h⟩
  | succ p ih =>
    intro q a x h
    have h2 : DescChain allTasks inc a x ((p + q) + 1) := by
      have : p + 1 + q = p + q + 1 := by omega
      rwa [this] at h
    cases h2 with
    | step hc hrest =>
      rcases ih hrest with ⟨y, h1, h2⟩
      exact ⟨y, DescChain.step hc h1, h2⟩

theorem DescChain.one_inv {allTasks : List TodoistTask} {inc : Bool}
    {p c : TodoistTask} (h : DescChain allTasks inc p c 1) :
    c ∈ childTasks allTasks inc p := by
  cases h with
  | step hc hrest => cases hrest; exact hc

/-- Two distinct children of the same node cannot both reach the same
task downward — otherwise the chains close into a downward cycle, which
the fuel bound of a successful build excludes. -/
theorem no_common_descendant_aux {allTasks : List TodoistTask} {inc : Bool}
    (hids : (allTasks.map fun u => u.id).Nodup) {t c1 c2 y : TodoistTask}
    {k1 k2 F0 : Nat} (ht : t ∈ allTasks)
    (hbound : ∀ x k, DescChain allTasks inc t x k → k < F0)
    (hc1 : c1 ∈ childTasks allTasks inc t) (hc2 : c2 ∈ childTasks allTasks inc t)
    (hne : c1 ≠ c2) (h1 : DescChain allTasks inc c1 y k1)
    (h2 : DescChain allTasks inc c2 y k2) (hle : k1 ≤ k2) : False := by
  rcases Nat.eq_or_lt_of_le hle with rfl | hlt
  · have e1 := DescChain.iter_eq hids h1 (childTasks_mem_elim hc1).1
    have e2 := DescChain.iter_eq hids h2 (childTasks_mem_elim hc2).1
    rw [e1] at e2
    exact hne (Option.some.inj e2)
  · have hsplit : k2 = (k2 - k1) + k1 := by omega
    rw [hsplit] at h2
    rcases DescChain.decompose h2 with ⟨z, hz1, hz2⟩
    have ez := DescChain.iter_eq hids hz2 (hz1.target_mem (childTasks_mem_elim hc2).1)
    have e1 := DescChain.iter_eq hids h1 (childTasks_mem_elim hc1).1
    have hzc1 : z = c1 := by
      rw [ez] at e1
      exact Option.some.inj e1
    rw [hzc1] at hz1
    have hdelta : k2 - k1 = (k2 - k1 - 1) + 1 := by omega
    rw [hdelta] at hz1
    rcases DescChain.decompose hz1 with ⟨p, hp1, hp2⟩
    have hedge := DescChain.one_inv hp2
    have hpid : c1.parentId = some p.id := (childTasks_mem_elim hedge).2
    have hpid2 : c1.parentId = some t.id := (childTasks_mem_elim hc1).2
    have hpt : p.id = t.id := by
      rw [hpid] at hpid2
      exact Option.some.inj hpid2
    have hpmem : p ∈ allTasks := hp1.target_mem (childTasks_mem_elim hc2).1
    have hptask : p = t := List.inj_on_of_nodup_map hids hpmem ht hpt
    rw [hptask] at hp1
    have hcyc : DescChain allTasks inc t t ((k2 - k1 - 1) + 1) := DescChain.step hc2 hp1
    have hbig := hcyc.pump F0
    have hlt2 := hbound _ _ hbig
    have hge : F0 ≤ F0 * ((k2 - k1 - 1) + 1) := Nat.le_mul_of_pos_right _ (by omega)
    omega

theorem no_common_descendant {allTasks : List TodoistTask} {inc : Bool}
    (hids : (allTasks.map fun u => u.id).Nodup) {t c1 c2 y : TodoistTask}
    {k1 k2 F0 : Nat} (ht : t ∈ allTasks)
    (hbound : ∀ x k, DescChain allTasks inc t x k → k < F0)
    (hc1 : c1 ∈ childTasks allTasks inc t) (hc2 : c2 ∈ childTasks allTasks inc t)
    (hne : c1 ≠ c2) (h1 : DescChain allTasks inc c1 y k1)
    (h2 : DescChain allTasks inc c2 y k2) : False := by
  rcases Nat.le_total k1 k2 with hle | hle
  · exact no_common_descendant_aux hids ht hbound hc1 hc2 hne h1 h2 hle
  · exact no_common_descendant_aux hids ht hbound hc2 hc1 (Ne.symm hne) h2 h1 hle

/-- No child subtree can reach a task carrying the root's id — that would
close a downward cycle through the root. -/
theorem chain_to_root_id {allTasks : List TodoistTask} {inc : Bool}
    (hids : (allTasks.map fun u => u.id).Nodup) {t c y : TodoistTask}
    {k F0 : Nat} (ht : t ∈ allTasks)
    (hbound : ∀ x k2, DescChain allTasks inc t x k2 → k2 < F0)
    (hc : c ∈ childTasks allTasks inc t) (h : DescChain allTasks inc c y k)
    (hy : y.id = t.id) : False := by
  have hymem := h.target_mem (childTasks_mem_elim hc).1
  have hyt : y = t := List.inj_on_of_nodup_map hids hymem ht hy
  rw [hyt] at h
  have hcyc : DescChain allTasks inc t t (k + 1) := DescChain.step hc h
  have hbig := hcyc.pump F0
  have hlt := hbound _ _ hbig
  have hge : F0 ≤ F0 * (k + 1) := Nat.le_mul_of_pos_right _ (by omega)
  omega

/-- The number of nodes in `l` whose task carries id `x`. -/
def cntId (x : String) (l : List ExtendedTaskNode) : Nat :=
  (l.filter fun m => m.task.id == x).length

theorem cntId_subNodes (x : String) (n : ExtendedTaskNode) :
    cntId x n.subNodes =
      (if (n.task.id == x) = true then 1 else 0) + cntId x (subNodesList n.children) := by
  rw [subNodes_def]
  unfold cntId
  rw [List.filter_cons]
  split
  · simp [Nat.add_comm]
  · simp

theorem cntId_subNodesList_cons (x : String) (nc : ExtendedTaskNode)
    (rest : List ExtendedTaskNode) :
    cntId x (subNodesList (nc :: rest)) =
      cntId x nc.subNodes + cntId x (subNodesList rest) := by
  rw [subNodesList_cons]
  unfold cntId
  rw [List.filter_append, List.length_append]

theorem cntId_pos_iff {x : String} {l : List ExtendedTaskNode} :
    0 < cntId x l ↔ ∃ m ∈ l, m.task.id = x := by
  unfold cntId
  constructor
  · intro h
    rcases hlf : l.filter (fun m => m.task.id == x) with _ | ⟨a, rest⟩
    · rw [hlf] at h; simp at h
    · have ha : a ∈ l.filter fun m => m.task.id == x := by rw [hlf]; exact List.mem_cons_self a rest
      rcases List.mem_filter.mp ha with ⟨hmem, hpred⟩
      exact ⟨a, hmem, by simpa using hpred⟩
  · rintro ⟨m, hm, hx⟩
    have : m ∈ l.filter fun m => m.task.id == x :=
      List.mem_filter.mpr ⟨hm, by simpa using hx⟩
    rcases hlf : l.filter (fun m => m.task.id == x) with _ | ⟨a, rest⟩
    · rw [hlf] at this; cases this
    · simp [hlf]

/-- With unique ids, no task id occurs more than once among the nodes of a
successful build. -/
theorem build_cntId_le_one {allTasks : List TodoistTask} {inc : Bool} {oid : String}
    (hids : (allTasks.map fun u => u.id).Nodup) :
    ∀ (f : Nat) (t : TodoistTask) (d : Nat) (n : ExtendedTaskNode),
      t ∈ allTasks → buildTaskTree allTasks inc oid f t d = some n →
      ∀ x : String, cntId x n.subNodes ≤ 1 := by
  intro f
  induction f using Nat.strong_induction_on with
  | _ f ih =>
    intro t d n ht hb x
    cases f with
    | zero => rw [buildTaskTree_zero] at hb; cases hb
    | succ f =>
      have hbound := buildTaskTree_chain_bound (f + 1) t d n hb
      rcases buildTaskTree_succ_eq_some.mp hb with ⟨ns, hns, rfl⟩
      have hallnodup : allTasks.Nodup := hids.of_map
      have hcsnodup : (childTasks allTasks inc t).Nodup := hallnodup.filter _
      have hsubchain : ∀ (c : TodoistTask) (nc : ExtendedTaskNode), c ∈ allTasks →
          buildTaskTree allTasks inc oid f c (d + 1) = some nc →
          0 < cntId x nc.subNodes →
          ∃ y k, DescChain allTasks inc c y k ∧ y.id = x ∧ y ∈ allTasks := by
        intro c nc hcA hcb hpos
        rcases cntId_pos_iff.mp hpos with ⟨m, hm, hmx⟩
        rcases buildTaskTree_subNode_chain f c (d + 1) nc hcb m hm with ⟨k, hk⟩
        exact ⟨m.task, k, hk, hmx, hk.target_mem hcA⟩
      have haux : ∀ (cs2 : List TodoistTask) (ns2 : List ExtendedTaskNode),
          List.Forall₂ (fun c m => buildTaskTree allTasks inc oid f c (d + 1) = some m)
            cs2 ns2 →
          (∀ c ∈ cs2, c ∈ childTasks allTasks inc t) → cs2.Nodup →
          cntId x (subNodesList ns2) ≤ 1 ∧
          (0 < cntId x (subNodesList ns2) →
            ∃ c ∈ cs2, ∃ y k, DescChain allTasks inc c y k ∧ y.id = x ∧ y ∈ allTasks) := by
        intro cs2 ns2 hF
        induction hF with
        | nil =>
          intro _ _
          constructor
          · rw [subNodesList_nil]; simp [cntId]
          · intro hpos; rw [subNodesList_nil] at hpos; simp [cntId] at hpos
        | cons hcb hFtail ihaux =>
          rename_i c nc cs2t ns2t
          intro hmemchild hnodup
          have hcchild := hmemchild c (List.mem_cons_self _ _)
          have hcsA : c ∈ allTasks := (childTasks_mem_elim hcchild).1
          have hmemtail : ∀ c2 ∈ cs2t, c2 ∈ childTasks allTasks inc t :=
            fun c2 h2 => hmemchild c2 (List.mem_cons_of_mem _ h2)
          have hnoduptail : cs2t.Nodup := (List.nodup_cons.mp hnodup).2
          have hnotmem : c ∉ cs2t := (List.nodup_cons.mp hnodup).1
          rcases ihaux hmemtail hnoduptail with ⟨htle, htpos⟩
          have hheadle : cntId x nc.subNodes ≤ 1 :=
            ih f (Nat.lt_succ_self f) c (d + 1) nc hcsA hcb x
          rw [cntId_subNodesList_cons]
          by_cases hhead : 0 < cntId x nc.subNodes
          · have htail0 : cntId x (subNodesList ns2t) = 0 := by
              by_contra hne0
              rcases htpos (by omega) with ⟨c2, hc2mem, y2, k2, hchain2, hy2x, hy2A⟩
              rcases hsubchain c nc hcsA hcb hhead with ⟨y1, k1, hchain1, hy1x, hy1A⟩
              have hyy : y1 = y2 :=
                List.inj_on_of_nodup_map hids hy1A hy2A (by rw [hy1x, hy2x])
              rw [hyy] at hchain1
              have hcne : c ≠ c2 := fun he => hnotmem (he ▸ hc2mem)
              exact no_common_descendant hids ht hbound hcchild
                (hmemtail c2 hc2mem) hcne hchain1 hchain2
            constructor
            · omega
            · intro _
              rcases hsubchain c nc hcsA hcb hhead with ⟨y1, k1, hchain1, hy1x, hy1A⟩
              exact ⟨c, List.mem_cons_self _ _, y1, k1, hchain1, hy1x, hy1A⟩
          · have hhead0 : cntId x nc.subNodes = 0 := by omega
            constructor
            · omega
            · intro hpos
              rcases htpos (by omega) with ⟨c2, h2, rest2⟩
              exact ⟨c2, List.mem_cons_of_mem _ h2, rest2⟩
      rcases haux (childTasks allTasks inc t) ns hns (fun c h => h) hcsnodup with
        ⟨hle, hposcase⟩
      have hassemble := cntId_subNodes x (mkExtendedTaskNode t d oid ns)
      rw [mkExtendedTaskNode_def] at hassemble
      simp only [ExtendedTaskNode.task_mk, ExtendedTaskNode.children_mk] at hassemble
      rw [mkExtendedTaskNode_def]
      rw [hassemble]
      by_cases hx : (t.id == x) = true
      · rw [if_pos hx]
        have hzero : cntId x (subNodesList ns) = 0 := by
          by_contra hne0
          rcases hposcase (by omega) with ⟨c, hc, y, k, hchain, hyx, hyA⟩
          have htx : t.id = x := by simpa using hx
          exact chain_to_root_id hids ht hbound hc hchain (by rw [hyx, htx])
        omega
      · rw [if_neg hx]
        omega

/-- Every filtered child of any node's task is realized as a node of the
successful build. -/
theorem build_realizes_child {allTasks : List TodoistTask} {inc : Bool}
    {oid : String} :
    ∀ (f : Nat) (t : TodoistTask) (d : Nat) (n : ExtendedTaskNode),
      buildTaskTree allTasks inc oid f t d = some n →
      ∀ m ∈ n.subNodes, ∀ c ∈ childTasks allTasks inc m.task,
        ∃ m2 ∈ n.subNodes, m2.task = c := by
  intro f
  induction f using Nat.strong_induction_on with
  | _ f ih =>
    intro t d n hb m hm c hc
    cases f with
    | zero => rw [buildTaskTree_zero] at hb; cases hb
    | succ f =>
      rcases buildTaskTree_succ_eq_some.mp hb with ⟨ns, hns, rfl⟩
      rw [mkExtendedTaskNode_def] at hm ⊢
      rw [subNodes_def] at hm ⊢
      simp only [ExtendedTaskNode.children_mk] at hm ⊢
      rcases List.mem_cons.mp hm with rfl | hdeep
      · simp only [ExtendedTaskNode.task_mk] at hc
        rcases forall2_mem_left hns c hc with ⟨nc, hnc, hncb⟩
        refine ⟨nc, ?_, buildTaskTree_task_eq hncb⟩
        exact List.mem_cons_of_mem _ (mem_subNodesList.mpr ⟨nc, hnc, self_mem_subNodes nc⟩)
      · rcases mem_subNodesList.mp hdeep with ⟨nc, hnc, hmnc⟩
        rcases forall2_mem_right hns nc hnc with ⟨ct, _, hcb⟩
        rcases ih f (Nat.lt_succ_self f) ct (d + 1) nc hcb m hmnc c hc with ⟨m2, hm2, hm2t⟩
        refine ⟨m2, ?_, hm2t⟩
        exact List.mem_cons_of_mem _ (mem_subNodesList.mpr ⟨nc, hnc, hm2⟩)

theorem walk_result_mem {allTasks : List TodoistTask} :
    ∀ (wf : Nat) (visited : List String) (q r : TodoistTask),
      q ∈ allTasks → findTopmostParent allTasks wf visited q = some r →
      r ∈ allTasks := by
  intro wf
  induction wf with
  | zero => intro visited q r _ hr; rw [findTopmostParent] at hr; cases hr
  | succ wf ih =>
    intro visited q r hq hr
    rw [findTopmostParent] at hr
    by_cases hguard : (jsTruthy q.parentId && !(visited.contains q.id)) = true
    · rw [if_pos hguard] at hr
      cases hfind : allTasks.find? (fun u => some u.id == q.parentId) with
      | none => rw [hfind] at hr; cases hr; exact hq
      | some parent =>
        rw [hfind] at hr
        exact ih _ parent r (List.mem_of_find?_eq_some hfind) hr
    · rw [if_neg hguard] at hr
      cases hr
      exact hq

/-- With `includeCompleted = true`, the requested task appears in the tree
built from the result of the ancestor walk. -/
theorem walk_in_tree {allTasks : List TodoistTask} {oid : String} :
    ∀ (wf : Nat) (visited : List String) (q r : TodoistTask),
      q ∈ allTasks → findTopmostParent allTasks wf visited q = some r →
      ∀ (bf : Nat) (n : ExtendedTaskNode),
        buildTaskTree allTasks true oid bf r 0 = some n →
        ∃ m ∈ n.subNodes, m.task = q := by
  intro wf
  induction wf with
  | zero => intro visited q r _ hr; rw [findTopmostParent] at hr; cases hr
  | succ wf ih =>
    intro visited q r hq hr bf n hbn
    rw [findTopmostParent] at hr
    by_cases hguard : (jsTruthy q.parentId && !(visited.contains q.id)) = true
    · rw [if_pos hguard] at hr
      cases hfind : allTasks.find? (fun u => some u.id == q.parentId) with
      | none =>
        rw [hfind] at hr
        cases hr
        exact ⟨n, self_mem_subNodes n, buildTaskTree_task_eq hbn⟩
      | some parent =>
        rw [hfind] at hr
        have hpmem := List.mem_of_find?_eq_some hfind
        rcases ih _ parent r hpmem hr bf n hbn with ⟨mp, hmp, hmptask⟩
        have hpred := List.find?_some hfind
        have hqpar : q.parentId = some parent.id := by
          have : some parent.id = q.parentId := by simpa using hpred
          exact this.symm
        have hqchild : q ∈ childTasks allTasks true parent := by
          rw [childTasks]
          refine List.mem_filter.mpr ⟨hq, ?_⟩
          simp [hqpar]
        have hqchild2 : q ∈ childTasks allTasks true mp.task := by
          rw [hmptask]
          exact hqchild
        exact build_realizes_child bf r 0 n hbn mp hmp q hqchild2
    · rw [if_neg hguard] at hr
      cases hr
      exact ⟨n, self_mem_subNodes n, buildTaskTree_task_eq hbn⟩

/-- A task set where the requested task is completed: pruned away under
`includeCompleted = false`. -/
def c5A : TodoistTask :=
  { id := "1", content := "A", parentId := none, isCompleted := false }

def c5B : TodoistTask :=
  { id := "2", content := "B", parentId := some "1", isCompleted := true }

def c5Tasks : List TodoistTask := [c5A, c5B]

def c5RootNode : ExtendedTaskNode := .mk c5A [] 0 0 1 0 false

theorem c5_buildRoot (f : Nat) :
    buildTaskTree c5Tasks false "2" (f + 1) c5A 0 = some c5RootNode := by
  simp [buildTaskTree, childTasks, c5Tasks, c5A, c5B,
    mkExtendedTaskNode, c5RootNode, List.mapM.loop, ExtendedTaskNode.task]

/-- Claim C5, counterexample: requesting the completed subtask B with
`includeCompleted = false` succeeds, but B is pruned from the tree, so no
node at all carries `isOriginalTask = true`. -/
theorem C5_pruned_requested_unmarked :
    (handleGetTaskHierarchyFromTask c5Tasks false c5B 5 5).map
        (fun h => ((h.root.subNodes).filter fun m => m.isOriginalTask).length) =
      some 0 := by
  have hwalk : findTopmostParent c5Tasks 5 [] c5B = some c5A := by
    simp [findTopmostParent, c5Tasks, c5A, c5B, jsTruthy]
  have hbuild : buildTaskTree c5Tasks false c5B.id 5 c5A 0 = some c5RootNode :=
    c5_buildRoot 4
  unfold handleGetTaskHierarchyFromTask
  rw [hwalk]
  dsimp only
  rw [hbuild]
  dsimp only
  simp [c5RootNode, ExtendedTaskNode.subNodes, subNodesList]

/-- Claim C5 (amended): on a task set with unique ids, any successful
hierarchy query with `includeCompleted = true` whose requested task is in
the fetched set marks exactly one node with `isOriginalTask = true`, and
every marked node's task id equals the returned `originalTaskId`. -/
theorem C5_amended_exactly_one_mark {allTasks : List TodoistTask}
    {req : TodoistTask} {wf bf : Nat} {h : TaskHierarchy}
    (hids : (allTasks.map fun u => u.id).Nodup) (hreq : req ∈ allTasks)
    (hh : handleGetTaskHierarchyFromTask allTasks true req wf bf = some h) :
    ((h.root.subNodes).filter fun m => m.isOriginalTask).length = 1 ∧
    ∀ m ∈ h.root.subNodes, m.isOriginalTask = true →
      m.task.id = h.originalTaskId := by
  rcases handleGetTaskHierarchyFromTask_inv hh with ⟨top, hw, hb, _, _, _, horig⟩
  have htopA : top ∈ allTasks := walk_result_mem wf [] req top hreq hw
  have hfilt : ((h.root.subNodes).filter fun m => m.isOriginalTask) =
      ((h.root.subNodes).filter fun m => m.task.id == req.id) := by
    apply List.filter_congr
    intro m hm
    exact (buildTaskTree_nodeFacts bf top 0 h.root hb m hm).orig_eq
  have hle := build_cntId_le_one hids bf top 0 h.root htopA hb req.id
  rcases walk_in_tree wf [] req top hreq hw bf h.root hb with ⟨m0, hm0, hm0t⟩
  have hpos : 0 < cntId req.id h.root.subNodes :=
    cntId_pos_iff.mpr ⟨m0, hm0, by rw [hm0t]⟩
  constructor
  · rw [hfilt]
    unfold cntId at hle hpos
    omega
  · intro m hm hmark
    have horigeq := (buildTaskTree_nodeFacts bf top 0 h.root hb m hm).orig_eq
    rw [hmark] at horigeq
    rw [horig]
    simpa using horigeq.symm

/-- Witness for the amended claim C5 on the scenario-1 hierarchy: exactly
the node of task C is marked. -/
theorem C5_amended_exactly_one_mark_witness :
    ((sHierarchy.root.subNodes).filter fun m => m.isOriginalTask).length = 1 ∧
    ∀ m ∈ sHierarchy.root.subNodes, m.isOriginalTask = true →
      m.task.id = sHierarchy.originalTaskId :=
  C5_amended_exactly_one_mark (by decide) (by decide) scenario_hierarchy_eq
